import Mathlib

/-!
Verification development for the MoSSo benchmarking harness
(repository `TDT4900-Masteroppgave/kdd20-mosso`).

The Python sources are shallowly embedded as pure Lean functions:

* `scripts/utils.py` — dataset normalization (`download_and_prepare_dataset`,
  `prepare_local_dataset`): the line-processing loop is `normLoop`; the
  filesystem-facing behaviour (existence memoization, gz download/removal,
  failure propagation) is `downloadPrepFull` over an explicit world state.
* `benchmark/benchmark.py` — the alternate `download_and_prepare_dataset`
  line processing is `benchLine` / `benchNormalizeOutput`.
* `scripts/run_mosso.py` — the harness `run_mosso` (artifact reconciliation
  over an explicit list of existing paths, metric extraction from captured
  text) and the aggregator `run_multiple_mosso` (parameterized by the list of
  per-run metric outcomes).
* `scripts/parameter_sweep.py` — `SWEEP_CONFIG` and the `run_sweep` loop
  (`recordFor` / `runSweepVals` / `runSweep`), parameterized by an oracle for
  the aggregator and one for dataset preparation.

Machine floats in the Python code are modelled as `ℚ`; file contents are
lists of lines; subprocess interaction is an explicit `ProcResult` value.
-/

namespace Mosso

/-! ## Character classes and tokenization (Python `str.split` / `str.strip`) -/

/-- Python `\s` / `str.split()` whitespace, restricted to ASCII. -/
def isPySpace (c : Char) : Bool :=
  c == ' ' || c == '\t' || c == '\n' || c == '\r' || c == '\x0c' || c == '\x0b'

/-- Character class of the regex group `[\d.]` (ASCII digits and dot). -/
def isDigitDot (c : Char) : Bool :=
  c.isDigit || c == '.'

/-- Accumulator-based splitter: `splitWsAux l acc` splits `l` on whitespace
runs, with `acc` holding the (reversed) current word. -/
def splitWsAux : List Char → List Char → List (List Char)
  | [], acc => if acc.isEmpty then [] else [acc.reverse]
  | c :: t, acc =>
    if isPySpace c then
      if acc.isEmpty then splitWsAux t [] else acc.reverse :: splitWsAux t []
    else
      splitWsAux t (c :: acc)

/-- Python `line.strip().split()`: whitespace-separated tokens, no empties. -/
def splitWs (l : List Char) : List (List Char) :=
  splitWsAux l []

/-- Tokens of a line, as strings. -/
def tokensOf (s : String) : List String :=
  (splitWs s.toList).map String.mk

/-! ## Integer parsing (Python `int(...)`) -/

/-- Digits of a numeral folded to a natural number. -/
def digitsToNat (l : List Char) : Nat :=
  l.foldl (fun a c => 10 * a + (c.toNat - 48)) 0

/-- Python `int(s)` on a whitespace-free token: optional sign followed by a
nonempty digit string.  (CPython additionally accepts underscore grouping and
non-ASCII digits; tokens of that shape are outside the modelled input range.) -/
def pyInt (s : String) : Option Int :=
  match s.toList with
  | [] => none
  | '-' :: rest =>
    if !rest.isEmpty && rest.all Char.isDigit then some (-(digitsToNat rest : Int)) else none
  | '+' :: rest =>
    if !rest.isEmpty && rest.all Char.isDigit then some ((digitsToNat rest : Int)) else none
  | l =>
    if l.all Char.isDigit then some ((digitsToNat l : Int)) else none

/-! ## Dataset Normalizer line processing (`scripts/utils.py` lines 107-129
and 143-162: both functions share this loop verbatim) -/

/-- Python `line.startswith('#')`. -/
def startsHash (s : String) : Bool :=
  match s.toList with
  | '#' :: _ => true
  | _ => false

/-- One line of the source through the guards of the normalizer loop:
`None` for a `#` comment, a line with fewer than two tokens, or tokens that
fail `int(...)`; otherwise the parsed `(u, v)` pair. -/
def parseLine (s : String) : Option (Int × Int) :=
  if startsHash s then none
  else
    match tokensOf s with
    | t0 :: t1 :: _ =>
      match pyInt t0, pyInt t1 with
      | some u, some v => some (u, v)
      | _, _ => none
    | _ => none

/-- Python `tuple(sorted((u, v)))`: the canonical (min, max) form. -/
def canonPair (p : Int × Int) : Int × Int :=
  if p.1 ≤ p.2 then p else (p.2, p.1)

/-- The normalizer's main loop: skip invalid lines, skip self-loops, skip
edges whose canonical form is in `seen`, otherwise emit `(u, v)` in original
order and extend `seen`. -/
def normLoop : List String → List (Int × Int) → List (Int × Int)
  | [], _ => []
  | l :: ls, seen =>
    match parseLine l with
    | none => normLoop ls seen
    | some (u, v) =>
      if u = v then normLoop ls seen
      else if canonPair (u, v) ∈ seen then normLoop ls seen
      else (u, v) :: normLoop ls (canonPair (u, v) :: seen)

/-- Edges produced by one normalization pass over the source lines. -/
def normalizeEdges (lines : List String) : List (Int × Int) :=
  normLoop lines []

/-- Output rendering `f"{u}\t{v}\t1"` (the file's lines, sans newline). -/
def renderEdge (p : Int × Int) : String :=
  toString p.1 ++ "\t" ++ toString p.2 ++ "\t1"

/-- Content of the file written by the normalizer, as a list of lines. -/
def normalizeOutput (lines : List String) : List String :=
  (normalizeEdges lines).map renderEdge

/-- Valid (parsed, non-self-loop) edges of the source in order, used to state
the first-occurrence property. -/
def validEdges (lines : List String) : List (Int × Int) :=
  (lines.filterMap parseLine).filter (fun p => decide (p.1 ≠ p.2))

/-! ## The benchmark/ variant of the normalizer
(`benchmark/benchmark.py` lines 128-133) -/

/-- Line processing of `benchmark/benchmark.py`'s `download_and_prepare_dataset`:
no integer validation, no self-loop removal, no deduplication; any non-comment
line with at least two tokens is reformatted as `tok0\ttok1\t1`. -/
def benchLine (s : String) : Option String :=
  if startsHash s then none
  else
    match tokensOf s with
    | t0 :: t1 :: _ => some (t0 ++ "\t" ++ t1 ++ "\t1")
    | _ => none

/-- Content written by the benchmark/ variant, as a list of lines. -/
def benchNormalizeOutput (lines : List String) : List String :=
  lines.filterMap benchLine

/-! ## Normalizer filesystem behaviour (`scripts/utils.py` lines 95-133, 135-165)

The world state carries the content of the target text file (if present), the
gz file, the remote source, and the two failure modes the spec discusses:
failure to open/download the source and an I/O error after a prefix of the
source has been consumed. -/

/-- World state for one `download_and_prepare_dataset` call. `txt` is the
content of `datasets/<filename>` if that file exists; `gzPresent`/`gzLines`
describe `datasets/<filename>.gz`; `remoteLines` is what a download would
deliver; `openFails` models `urlretrieve`/`gzip.open` raising; a mid-stream
I/O error after `k` source lines is `truncatedAfter = some k`. -/
structure DlWorld where
  txt : Option (List String)
  gzPresent : Bool
  gzLines : List String
  remoteLines : List String
  openFails : Bool
  truncatedAfter : Option Nat
deriving DecidableEq

/-- Embedding of `download_and_prepare_dataset(url, filename)`: if the target
exists it is returned immediately; otherwise the gz source is downloaded when
missing, the line loop runs, and on success the gz file is removed.  An open
failure raises before the target is created; a mid-stream error leaves the
partially written target on disk and raises.  The returned `Except` is the
Python control flow: `.error ()` means an exception propagated to the caller. -/
def downloadPrepFull (fname : String) (w : DlWorld) : DlWorld × Except Unit String :=
  let path := "datasets/" ++ fname
  match w.txt with
  | some _ => (w, .ok path)
  | none =>
    let gz := if w.gzPresent then w.gzLines else w.remoteLines
    let w' := { w with gzPresent := true, gzLines := gz }
    if w.openFails then (w', .error ())
    else
      match w.truncatedAfter with
      | some k => ({ w' with txt := some (normalizeOutput (gz.take k)) }, .error ())
      | none => ({ w' with txt := some (normalizeOutput gz), gzPresent := false }, .ok path)

/-- Embedding of `prepare_local_dataset(filepath)`: the previous content of
the target (`_prevOut`, present when `datasets/prepared_<fname>` already
exists) is never consulted — the function reprocesses unconditionally and
overwrites the target, returning its path. -/
def prepareLocalRun (fname : String) (srcLines : List String)
    (_prevOut : Option (List String)) : List String × String :=
  (normalizeOutput srcLines, "datasets/prepared_" ++ fname)

/-! ## Process Execution Harness (`scripts/run_mosso.py` lines 8-51) -/

/-- The hardcoded artifact deposit path `os.path.join("output", output_name)`. -/
def javaOutputFile (name : String) : String :=
  "output/" ++ name

/-- The relocation target `os.path.join(SUMMARIZED_DIR, output_name)` with
`SUMMARIZED_DIR = output/benchmark/summarized_graphs`. -/
def summarizedPath (name : String) : String :=
  "output/benchmark/summarized_graphs/" ++ name

/-- Artifact reconciliation of `run_mosso` (lines 34-39): when the deposited
artifact exists it is removed (discard) or moved to the summarized directory.
`fs` is the list of artifact paths that exist. -/
def reconcile (fs : List String) (name : String) (discard : Bool) : List String :=
  if javaOutputFile name ∈ fs then
    if discard then fs.erase (javaOutputFile name)
    else summarizedPath name :: fs.erase (javaOutputFile name)
  else fs

/-! ## Metrics Extractor (`scripts/run_mosso.py` lines 41-47)

The two `re.search` patterns `Execution time:\s*([\d.]+)s` (case-sensitive)
and `Expected Compression Ratio:\s*([\d.]+)` (`re.IGNORECASE`) are embedded as
deterministic scanners.  For both patterns greedy matching never backtracks
(a shorter `\s*` continues with a whitespace character, never `[\d.]`, and a
shorter `[\d.]+` continues with a digit or dot, never `s`), so maximal-munch
per start position plus a left-to-right scan is exactly `re.search`. -/

/-- Characters of the first regex's fixed label. -/
def timeLabel : List Char :=
  "Execution time:".toList

/-- Characters of the second regex's label, lowercased for `re.IGNORECASE`. -/
def ratioLabelLower : List Char :=
  "expected compression ratio:".toList

/-- Match the fixed label at the head of `s` case-sensitively, returning the
rest. -/
def dropLabelCS : List Char → List Char → Option (List Char)
  | [], rest => some rest
  | _ :: _, [] => none
  | p :: ps, c :: cs => if c = p then dropLabelCS ps cs else none

/-- Match the fixed lowercase label at the head of `s` case-insensitively
(`re.IGNORECASE`), returning the rest. -/
def dropLabelCI : List Char → List Char → Option (List Char)
  | [], rest => some rest
  | _ :: _, [] => none
  | p :: ps, c :: cs => if c.toLower = p then dropLabelCI ps cs else none

/-- After the label: `\s*` then the group `([\d.]+)`, returning the group and
the remainder. -/
def numGroupAfter (s : List Char) : Option (List Char × List Char) :=
  let s1 := s.dropWhile isPySpace
  let g := s1.takeWhile isDigitDot
  if g.isEmpty then none else some (g, s1.dropWhile isDigitDot)

/-- Full time pattern anchored at the head of `s`: label, `\s*`, group, `s`. -/
def timeGroupAt (s : List Char) : Option (List Char) :=
  (dropLabelCS timeLabel s).bind fun rest =>
    (numGroupAfter rest).bind fun gr =>
      match gr.2 with
      | c :: _ => if c = 's' then some gr.1 else none
      | [] => none

/-- Full ratio pattern anchored at the head of `s`: label (case-insensitive),
`\s*`, group. -/
def ratioGroupAt (s : List Char) : Option (List Char) :=
  (dropLabelCI ratioLabelLower s).bind fun rest =>
    (numGroupAfter rest).map (fun pr => pr.1)

/-- Left-to-right scan over all start positions: `re.search`. -/
def scanFirst {α : Type} (f : List Char → Option α) : List Char → Option α
  | [] => f []
  | c :: t =>
    match f (c :: t) with
    | some a => some a
    | none => scanFirst f t

/-- Python `float(...)` on a `[\d.]+` match group, as a rational: at most one
dot and at least one digit, else `None` (modelling the `ValueError`). -/
def pyFloat (g : List Char) : Option ℚ :=
  if g.all isDigitDot then
    if g.count '.' = 0 then
      if g.isEmpty then none else some ((digitsToNat g : ℚ))
    else if g.count '.' = 1 then
      let ip := g.takeWhile (fun c => c != '.')
      let fp := (g.dropWhile (fun c => c != '.')).tail
      if ip.isEmpty && fp.isEmpty then none
      else some ((digitsToNat ip : ℚ) + (digitsToNat fp : ℚ) / ((10 : ℚ) ^ fp.length))
    else none
  else none

/-- Lines 41-47 of `run_mosso`: search both patterns in the captured text,
then convert each first match with `float(...)`.  A `float` failure is the
`ValueError` that the surrounding `try` turns into a `(None, None)` run, so
the result is an `Except`; absence of a pattern is just `none` for that
metric. -/
def extractMetrics (out : String) : Except Unit (Option ℚ × Option ℚ) :=
  let tm := scanFirst timeGroupAt out.toList
  let rm := scanFirst ratioGroupAt out.toList
  match tm with
  | some g =>
    match pyFloat g with
    | none => .error ()
    | some t =>
      match rm with
      | some g2 =>
        match pyFloat g2 with
        | none => .error ()
        | some r => .ok (some t, some r)
      | none => .ok (some t, none)
  | none =>
    match rm with
    | some g2 =>
      match pyFloat g2 with
      | none => .error ()
      | some r => .ok (none, some r)
    | none => .ok (none, none)

/-! ## The harness proper -/

/-- Result of the `subprocess.Popen` interaction: either the spawn raised
(executable missing, permissions), or the process ran to completion with an
exit code and its merged stdout/stderr text. -/
inductive ProcResult where
  | spawnFail
  | ran (returncode : Int) (output : String)

/-- Embedding of `run_mosso` (lines 19-51), abstracting the child process as
`pr` and the artifact filesystem as `fs`: on spawn failure or non-zero exit it
returns `(None, None)` and touches nothing; on zero exit it reconciles the
artifact and extracts metrics, with an extraction `ValueError` caught by the
surrounding `except` into `(None, None)`.  (Log-file writing is not tracked
in `fs`, which holds only artifact paths.) -/
def run_mosso (pr : ProcResult) (fs : List String) (outputName : String)
    (discard : Bool) : (Option ℚ × Option ℚ) × List String :=
  match pr with
  | .spawnFail => ((none, none), fs)
  | .ran rc out =>
    if rc = 0 then
      let fs' := reconcile fs outputName discard
      match extractMetrics out with
      | .ok m => (m, fs')
      | .error _ => ((none, none), fs')
    else ((none, none), fs)

/-! ## Multi-Run Aggregator (`scripts/run_mosso.py` lines 53-64)

The N harness invocations are abstracted as the list of their `(t, r)`
outcomes; the aggregator's own logic — collect a run's metrics exactly when
both are present, then average — is embedded directly. -/

/-- The loop body of `run_multiple_mosso`: append `t` and `r` to the sample
lists iff both are non-`None`, preserving run order. -/
def collectSamples : List (Option ℚ × Option ℚ) → List ℚ × List ℚ
  | [] => ([], [])
  | o :: rest =>
    let tr := collectSamples rest
    match o with
    | (some t, some r) => (t :: tr.1, r :: tr.2)
    | _ => tr

/-- Embedding of `run_multiple_mosso`: returns
`(t_avg, r_avg, times, ratios)` with each mean `None` on an empty sample
list (`sum(xs)/len(xs) if xs else None`). -/
def run_multiple_mosso (outcomes : List (Option ℚ × Option ℚ)) :
    Option ℚ × Option ℚ × List ℚ × List ℚ :=
  let ts := (collectSamples outcomes).1
  let rs := (collectSamples outcomes).2
  let tAvg := if ts.isEmpty then none else some (ts.sum / (ts.length : ℚ))
  let rAvg := if rs.isEmpty then none else some (rs.sum / (rs.length : ℚ))
  (tAvg, rAvg, ts, rs)

/-! ## Parameter Sweep Controller (`scripts/parameter_sweep.py` lines 9-13,
82-127) -/

/-- The keys of `SWEEP_CONFIG`. -/
inductive SweepParam where
  | samples
  | escape
  | b
deriving DecidableEq

/-- The `values` lists of `SWEEP_CONFIG`: `range(10, 240, 10)`,
`range(1, 9, 2)`, `[1, 3, 5, 7, 10]`. -/
def sweepValues : SweepParam → List Int
  | .samples => [10, 20, 30, 40, 50, 60, 70, 80, 90, 100, 110, 120, 130, 140,
                 150, 160, 170, 180, 190, 200, 210, 220, 230]
  | .escape => [1, 3, 5, 7]
  | .b => [1, 3, 5, 7, 10]

/-- The `default` entries of `SWEEP_CONFIG`. -/
def sweepDefault : SweepParam → Int
  | .samples => 120
  | .escape => 3
  | .b => 5

/-- Jar filename constants from `scripts/utils.py` / `scripts/config.py`. -/
def JAR_ORIGINAL : String := "mosso-original.jar"

/-- The variant executable's jar filename. -/
def JAR_HYBRID : String := "mosso-hybrid.jar"

/-- Arguments of one `run_multiple_mosso` invocation that determine its
measurements.  The per-invocation output-name token, the run count, the
discard flag (always `True` in the sweep) and the logger only affect log
naming and bookkeeping, not the metric outcomes, and are elided from the
oracle's domain. -/
structure AggArgs where
  jar : String
  datasetPath : String
  samples : Int
  escape : Int
  interval : Int
  bCandidates : Option Int
deriving DecidableEq

/-- Python `s.replace(old, "")` for a nonempty `old`: left-to-right removal of
non-overlapping occurrences, with the input length as structural fuel. -/
def stripAllFuel (pat : List Char) : Nat → List Char → List Char
  | 0, l => l
  | _ + 1, [] => []
  | n + 1, c :: t =>
    match dropLabelCS pat (c :: t) with
    | some rest => stripAllFuel pat n rest
    | none => c :: stripAllFuel pat n t

/-- Python `s.replace(old, "")` on strings. -/
def stripAll (pat : String) (s : String) : String :=
  String.mk (stripAllFuel pat.toList s.toList.length s.toList)

/-- `dataset_name = filename.replace(".txt", "").replace(".csv", "")` applied
to a `(url, filename)` dataset entry. -/
def datasetName (ds : String × String) : String :=
  stripAll ".csv" (stripAll ".txt" ds.2)

/-- One emitted row of the sweep's `all_results` table. -/
structure SweepRow where
  dataset : String
  value : Int
  timeOriginal : ℚ
  timeHybrid : ℚ
  ratioOriginal : Option ℚ
  ratioHybrid : Option ℚ
deriving DecidableEq

/-- The baseline invocation of line 108: always
`run_multiple_mosso(JAR_ORIGINAL, path, ..., 120, 3, 1000, ...)` with no
candidate-count argument, independent of the swept value. -/
def baselineArgs (path : String) : AggArgs :=
  ⟨JAR_ORIGINAL, path, 120, 3, 1000, none⟩

/-- The variant invocation of lines 88-90 and 111: the swept parameter takes
the current value and every other configured parameter its `SWEEP_CONFIG`
default. -/
def variantArgs (param : SweepParam) (val : Int) (path : String) : AggArgs :=
  ⟨JAR_HYBRID, path,
    (if param = .samples then val else sweepDefault .samples),
    (if param = .escape then val else sweepDefault .escape), 1000,
    some (if param = .b then val else sweepDefault .b)⟩

/-- Body of the inner loop of `run_sweep` (lines 92-127) for one
`(value, dataset)` pair: prepare the dataset (`prep` oracle; `none` models the
falsy-path safety check at lines 101-103), run the aggregator (`agg` oracle
returning the two means) once for the baseline at its fixed literals
`120, 3, 1000` with no candidate argument and once for the variant at the
swept configuration.  A combination whose mean times are not both present is
skipped (`if None in (t1, t2): continue`, modelled as `.ok none`).  Otherwise
lines 118-119 compute the real-time percentage feedback
`t_diff = ((t1 - t2) / t1) * 100` and `r_diff = ((r2 - r1) / r1) * 100`
before the append: a zero baseline mean time or mean ratio raises
`ZeroDivisionError`, and an absent ratio mean raises `TypeError` at the
subtraction, all uncaught — modelled as `.error ()`, which aborts the whole
sweep.  Only the logging of the computed percentages is elided. -/
def recordFor (param : SweepParam) (agg : AggArgs → Option ℚ × Option ℚ)
    (prep : String × String → Option String) (val : Int) (ds : String × String) :
    Except Unit (Option SweepRow) :=
  match prep ds with
  | none => .ok none
  | some path =>
    let r1 := agg (baselineArgs path)
    let r2 := agg (variantArgs param val path)
    match r1.1, r2.1 with
    | some tv1, some tv2 =>
      if tv1 = 0 then .error ()
      else
        match r1.2, r2.2 with
        | some rv1, some rv2 =>
          if rv1 = 0 then .error ()
          else .ok (some ⟨datasetName ds, val, tv1, tv2, some rv1, some rv2⟩)
        | _, _ => .error ()
    | _, _ => .ok none

/-- The inner dataset loop of `run_sweep` for one swept value: rows are
appended in dataset order and an uncaught exception in any cell aborts the
whole function. -/
def runSweepCells (param : SweepParam) (agg : AggArgs → Option ℚ × Option ℚ)
    (prep : String × String → Option String) (val : Int) :
    List (String × String) → Except Unit (List SweepRow)
  | [] => .ok []
  | ds :: rest =>
    match recordFor param agg prep val ds with
    | .error e => .error e
    | .ok none => runSweepCells param agg prep val rest
    | .ok (some row) =>
      match runSweepCells param agg prep val rest with
      | .error e => .error e
      | .ok rows => .ok (row :: rows)

/-- The two nested loops of `run_sweep` over an explicit value list: values in
list order, datasets inside each value; an exception anywhere aborts the
sweep, losing the rows accumulated so far (nothing is written on the
exception path). -/
def runSweepVals (param : SweepParam) (agg : AggArgs → Option ℚ × Option ℚ)
    (prep : String × String → Option String) :
    List Int → List (String × String) → Except Unit (List SweepRow)
  | [], _ => .ok []
  | v :: vs, datasets =>
    match runSweepCells param agg prep v datasets with
    | .error e => .error e
    | .ok rows1 =>
      match runSweepVals param agg prep vs datasets with
      | .error e => .error e
      | .ok rows2 => .ok (rows1 ++ rows2)

/-- `run_sweep` proper: the value list is read from `SWEEP_CONFIG[param]`. -/
def runSweep (param : SweepParam) (agg : AggArgs → Option ℚ × Option ℚ)
    (prep : String × String → Option String)
    (datasets : List (String × String)) : Except Unit (List SweepRow) :=
  runSweepVals param agg prep (sweepValues param) datasets

/-! ## Lemmas about the normalizer loop -/

theorem normLoop_cons_none {l : String} {ls : List String} {seen : List (Int × Int)}
    (hpl : parseLine l = none) : normLoop (l :: ls) seen = normLoop ls seen := by
  rw [normLoop, hpl]

theorem normLoop_cons_some {l : String} {ls : List String} {seen : List (Int × Int)}
    {u v : Int} (hpl : parseLine l = some (u, v)) :
    normLoop (l :: ls) seen =
      if u = v then normLoop ls seen
      else if canonPair (u, v) ∈ seen then normLoop ls seen
      else (u, v) :: normLoop ls (canonPair (u, v) :: seen) := by
  rw [normLoop, hpl]

theorem normLoop_ne (lines : List String) :
    ∀ seen, ∀ p ∈ normLoop lines seen, p.1 ≠ p.2 := by
  induction lines with
  | nil => intro seen p hp; simp [normLoop] at hp
  | cons l ls ih =>
    intro seen p hp
    cases hpl : parseLine l with
    | none => rw [normLoop_cons_none hpl] at hp; exact ih seen p hp
    | some uv =>
      obtain ⟨u, v⟩ := uv
      rw [normLoop_cons_some hpl] at hp
      by_cases huv : u = v
      · rw [if_pos huv] at hp; exact ih seen p hp
      · rw [if_neg huv] at hp
        by_cases hseen : canonPair (u, v) ∈ seen
        · rw [if_pos hseen] at hp; exact ih seen p hp
        · rw [if_neg hseen] at hp
          rcases List.mem_cons.mp hp with h | h
          · subst h; exact huv
          · exact ih _ p h

theorem normLoop_not_mem_seen (lines : List String) :
    ∀ seen, ∀ p ∈ normLoop lines seen, canonPair p ∉ seen := by
  induction lines with
  | nil => intro seen p hp; simp [normLoop] at hp
  | cons l ls ih =>
    intro seen p hp
    cases hpl : parseLine l with
    | none => rw [normLoop_cons_none hpl] at hp; exact ih seen p hp
    | some uv =>
      obtain ⟨u, v⟩ := uv
      rw [normLoop_cons_some hpl] at hp
      by_cases huv : u = v
      · rw [if_pos huv] at hp; exact ih seen p hp
      · rw [if_neg huv] at hp
        by_cases hseen : canonPair (u, v) ∈ seen
        · rw [if_pos hseen] at hp; exact ih seen p hp
        · rw [if_neg hseen] at hp
          rcases List.mem_cons.mp hp with h | h
          · subst h; exact hseen
          · intro hmem
            exact ih _ p h (List.mem_cons_of_mem _ hmem)

theorem normLoop_canon_nodup (lines : List String) :
    ∀ seen, ((normLoop lines seen).map canonPair).Nodup := by
  induction lines with
  | nil => intro seen; simp [normLoop]
  | cons l ls ih =>
    intro seen
    cases hpl : parseLine l with
    | none => rw [normLoop_cons_none hpl]; exact ih seen
    | some uv =>
      obtain ⟨u, v⟩ := uv
      rw [normLoop_cons_some hpl]
      by_cases huv : u = v
      · rw [if_pos huv]; exact ih seen
      · rw [if_neg huv]
        by_cases hseen : canonPair (u, v) ∈ seen
        · rw [if_pos hseen]; exact ih seen
        · rw [if_neg hseen]
          rw [List.map_cons, List.nodup_cons]
          refine ⟨?_, ih _⟩
          intro hmem
          obtain ⟨p, hp, hcp⟩ := List.mem_map.mp hmem
          have := normLoop_not_mem_seen ls _ p hp
          exact this (hcp ▸ List.mem_cons_self _ _)

theorem validEdges_cons_none {l : String} {ls : List String}
    (hpl : parseLine l = none) : validEdges (l :: ls) = validEdges ls := by
  simp [validEdges, List.filterMap_cons, hpl]

theorem validEdges_cons_loop {l : String} {ls : List String} {u : Int}
    (hpl : parseLine l = some (u, u)) : validEdges (l :: ls) = validEdges ls := by
  simp [validEdges, List.filterMap_cons, hpl, List.filter_cons]

theorem validEdges_cons_edge {l : String} {ls : List String} {u v : Int}
    (hpl : parseLine l = some (u, v)) (hne : u ≠ v) :
    validEdges (l :: ls) = (u, v) :: validEdges ls := by
  simp [validEdges, List.filterMap_cons, hpl, List.filter_cons, hne]

theorem normLoop_first_occurrence (lines : List String) :
    ∀ seen, ∀ p ∈ normLoop lines seen,
      (validEdges lines).find? (fun q => decide (canonPair q = canonPair p)) = some p := by
  induction lines with
  | nil => intro seen p hp; simp [normLoop] at hp
  | cons l ls ih =>
    intro seen p hp
    cases hpl : parseLine l with
    | none =>
      rw [normLoop_cons_none hpl] at hp
      rw [validEdges_cons_none hpl]
      exact ih seen p hp
    | some uv =>
      obtain ⟨u, v⟩ := uv
      rw [normLoop_cons_some hpl] at hp
      by_cases huv : u = v
      · rw [if_pos huv] at hp
        subst huv
        rw [validEdges_cons_loop hpl]
        exact ih seen p hp
      · rw [if_neg huv] at hp
        rw [validEdges_cons_edge hpl huv]
        by_cases hseen : canonPair (u, v) ∈ seen
        · rw [if_pos hseen] at hp
          have hnp := normLoop_not_mem_seen ls seen p hp
          have hcne : canonPair (u, v) ≠ canonPair p := by
            intro he; exact hnp (he ▸ hseen)
          rw [List.find?_cons]
          simp only [decide_eq_false hcne]
          exact ih seen p hp
        · rw [if_neg hseen] at hp
          rcases List.mem_cons.mp hp with h | h
          · subst h
            rw [List.find?_cons]
            simp
          · have hnp := normLoop_not_mem_seen ls _ p h
            have hcne : canonPair (u, v) ≠ canonPair p := by
              intro he
              exact hnp (he ▸ List.mem_cons_self _ _)
            rw [List.find?_cons]
            simp only [decide_eq_false hcne]
            exact ih _ p h

/-- C1: for every input source, the normalizer's output has no self-loop
line, canonical pairs of output lines are pairwise distinct (each canonical
pair appearing in the output corresponds to exactly one output line), each
output edge is exactly the first valid source occurrence of its canonical
pair (original vertex order preserved), and every output line is rendered
`u<TAB>v<TAB>1` with the trailing weight field `1`. -/
theorem claim_C1_normalizer_output (lines : List String) :
    (∀ p ∈ normalizeEdges lines, p.1 ≠ p.2) ∧
    ((normalizeEdges lines).map canonPair).Nodup ∧
    (∀ p ∈ normalizeEdges lines,
      (validEdges lines).find? (fun q => decide (canonPair q = canonPair p)) = some p) ∧
    (∀ s ∈ normalizeOutput lines, ∃ p ∈ normalizeEdges lines,
      s = toString p.1 ++ "\t" ++ toString p.2 ++ "\t1") := by
  refine ⟨normLoop_ne lines [], normLoop_canon_nodup lines [],
    normLoop_first_occurrence lines [], ?_⟩
  intro s hs
  obtain ⟨p, hp, hrender⟩ := List.mem_map.mp hs
  exact ⟨p, hp, hrender.symm⟩

/-- Witness for C1 at a concrete source: a duplicate undirected edge `2 1`
and a self-loop `3 3` are dropped, and the surviving edge `(1, 2)` is found
as the first valid occurrence of its canonical pair. -/
theorem claim_C1_witness :
    (1, 2) ∈ normalizeEdges ["1 2", "2 1", "3 3", "2 3"] ∧
    ((1 : Int), (2 : Int)).1 ≠ ((1 : Int), (2 : Int)).2 ∧
    (validEdges ["1 2", "2 1", "3 3", "2 3"]).find?
      (fun q => decide (canonPair q = canonPair (1, 2))) = some (1, 2) := by
  have h := claim_C1_normalizer_output ["1 2", "2 1", "3 3", "2 3"]
  have hmem : ((1 : Int), (2 : Int)) ∈ normalizeEdges ["1 2", "2 1", "3 3", "2 3"] := by decide
  exact ⟨hmem, h.1 _ hmem, h.2.2.1 _ hmem⟩

/-! ## Multi-Run Aggregator lemmas -/

theorem collectSamples_eq_filterMap (outcomes : List (Option ℚ × Option ℚ)) :
    collectSamples outcomes =
      (outcomes.filterMap (fun o =>
        match o with
        | (some t, some r) => some (t, r)
        | _ => none)).unzip := by
  induction outcomes with
  | nil => rfl
  | cons o rest ih =>
    obtain ⟨t, r⟩ := o
    cases t with
    | none => simpa [collectSamples, List.filterMap_cons] using ih
    | some tv =>
      cases r with
      | none => simpa [collectSamples, List.filterMap_cons] using ih
      | some rv =>
        simp [collectSamples, List.filterMap_cons, List.unzip_cons, ih]

/-- C2: the Multi-Run Aggregator's sample lists are exactly the projections of
the runs where both metrics are present (in run order), each mean is the
arithmetic mean over exactly those runs, zero qualifying runs gives absent
means and empty sample lists with no division, and the spec's concrete
three-run example gives mean time `3/2` with sample lists of length 2. -/
theorem claim_C2_aggregator :
    (∀ outcomes : List (Option ℚ × Option ℚ),
      (run_multiple_mosso outcomes).2.2.1 =
        outcomes.filterMap (fun o =>
          match o with
          | (some t, some _) => some t
          | _ => none) ∧
      (run_multiple_mosso outcomes).2.2.2 =
        outcomes.filterMap (fun o =>
          match o with
          | (some _, some r) => some r
          | _ => none)) ∧
    (∀ outcomes : List (Option ℚ × Option ℚ),
      (run_multiple_mosso outcomes).1 =
        (if (run_multiple_mosso outcomes).2.2.1 = [] then none
         else some ((run_multiple_mosso outcomes).2.2.1.sum /
                    ((run_multiple_mosso outcomes).2.2.1.length : ℚ))) ∧
      (run_multiple_mosso outcomes).2.1 =
        (if (run_multiple_mosso outcomes).2.2.2 = [] then none
         else some ((run_multiple_mosso outcomes).2.2.2.sum /
                    ((run_multiple_mosso outcomes).2.2.2.length : ℚ)))) ∧
    (∀ outcomes : List (Option ℚ × Option ℚ),
      (∀ o ∈ outcomes, o.1 = none ∨ o.2 = none) →
      run_multiple_mosso outcomes = (none, none, [], [])) ∧
    run_multiple_mosso [(some 1, some (1/2)), (none, some (2/5)), (some 2, some (7/10))] =
      (some (3/2), some (3/5), [1, 2], [1/2, 7/10]) ∧
    (run_multiple_mosso [(some 1, some (1/2)), (none, some (2/5)),
      (some 2, some (7/10))]).2.2.1.length = 2 ∧
    (run_multiple_mosso [(some 1, some (1/2)), (none, some (2/5)),
      (some 2, some (7/10))]).2.2.2.length = 2 := by
  refine ⟨?_, ?_, ?_, ?_, ?_, ?_⟩
  · intro outcomes
    constructor
    · show (collectSamples outcomes).1 = _
      rw [collectSamples_eq_filterMap]
      induction outcomes with
      | nil => rfl
      | cons o rest ih =>
        obtain ⟨t, r⟩ := o
        cases t with
        | none => simpa [List.filterMap_cons] using ih
        | some tv =>
          cases r with
          | none => simpa [List.filterMap_cons] using ih
          | some rv => simpa [List.filterMap_cons, List.unzip_cons] using ih
    · show (collectSamples outcomes).2 = _
      rw [collectSamples_eq_filterMap]
      induction outcomes with
      | nil => rfl
      | cons o rest ih =>
        obtain ⟨t, r⟩ := o
        cases t with
        | none => simpa [List.filterMap_cons] using ih
        | some tv =>
          cases r with
          | none => simpa [List.filterMap_cons] using ih
          | some rv => simpa [List.filterMap_cons, List.unzip_cons] using ih
  · intro outcomes
    constructor
    · show (if (collectSamples outcomes).1.isEmpty then none else _) = _
      by_cases h : (collectSamples outcomes).1 = []
      · simp [run_multiple_mosso, h]
      · simp [run_multiple_mosso, h, List.isEmpty_iff]
    · show (if (collectSamples outcomes).2.isEmpty then none else _) = _
      by_cases h : (collectSamples outcomes).2 = []
      · simp [run_multiple_mosso, h]
      · simp [run_multiple_mosso, h, List.isEmpty_iff]
  · intro outcomes hall
    have hc : collectSamples outcomes = ([], []) := by
      induction outcomes with
      | nil => rfl
      | cons o rest ih =>
        obtain ⟨t, r⟩ := o
        have ho := hall (t, r) (List.mem_cons_self _ _)
        have hrest : ∀ o ∈ rest, o.1 = none ∨ o.2 = none := by
          intro o ho'; exact hall o (List.mem_cons_of_mem _ ho')
        rcases ho with h | h
        · simp only at h
          subst h
          simpa [collectSamples] using ih hrest
        · simp only at h
          subst h
          cases t with
          | none => simpa [collectSamples] using ih hrest
          | some tv => simpa [collectSamples] using ih hrest
    simp [run_multiple_mosso, hc]
  · simp only [run_multiple_mosso, collectSamples]
    norm_num
  · rfl
  · rfl

/-- Witness for C2: applying the zero-qualifying-runs conjunct at a concrete
outcome list where every run misses a metric. -/
theorem claim_C2_witness :
    run_multiple_mosso [(none, some (2/5)), (some 1, none)] = (none, none, [], []) :=
  claim_C2_aggregator.2.2.1 [(none, some (2/5)), (some 1, none)] (by decide)

/-! ## Harness artifact lemmas (C3, C4) -/

theorem run_mosso_fs_zero_exit (out : String) (fs : List String) (name : String)
    (discard : Bool) :
    (run_mosso (.ran 0 out) fs name discard).2 = reconcile fs name discard := by
  rw [run_mosso]
  rw [if_pos rfl]
  cases extractMetrics out <;> rfl

theorem length_summarizedPath (name : String) :
    (summarizedPath name).length = 35 + name.length := by
  rw [summarizedPath, String.length_append,
    show "output/benchmark/summarized_graphs/".length = 35 from by decide]

theorem length_javaOutputFile (name : String) :
    (javaOutputFile name).length = 7 + name.length := by
  rw [javaOutputFile, String.length_append,
    show "output/".length = 7 from by decide]

theorem javaOutputFile_ne_summarizedPath (name : String) :
    javaOutputFile name ≠ summarizedPath name := by
  intro h
  have := congrArg String.length h
  rw [length_javaOutputFile, length_summarizedPath] at this
  omega

/-- C3 counterexample: the spec describes the artifact deposit path as a
fixed, well-known path independent of the output-name token, but the code
computes it as `os.path.join("output", output_name)`: two different tokens
yield two different deposit paths. -/
theorem claim_C3_counterexample : javaOutputFile "a" ≠ javaOutputFile "b" := by
  decide

/-- C3 (amended): the deposit path is `output/<output_name>` — the fixed
directory `output` joined with the output-name token, not independent of it.
With that correction the artifact behaviour holds for every successful
(zero-exit) run in which the artifact was deposited: with the discard flag the
artifact no longer exists afterwards; without it the artifact exists at the
relocated path `output/benchmark/summarized_graphs/<output_name>` and no
longer at its deposit path. -/
theorem claim_C3_artifact (fs : List String) (name : String) (out : String)
    (hnodup : fs.Nodup) (hdep : javaOutputFile name ∈ fs) :
    javaOutputFile name ∉ (run_mosso (.ran 0 out) fs name true).2 ∧
    summarizedPath name ∈ (run_mosso (.ran 0 out) fs name false).2 ∧
    javaOutputFile name ∉ (run_mosso (.ran 0 out) fs name false).2 := by
  rw [run_mosso_fs_zero_exit, run_mosso_fs_zero_exit]
  unfold reconcile
  rw [if_pos hdep, if_pos hdep]
  simp only [Bool.true_eq_false, if_true, if_false]
  refine ⟨?_, List.mem_cons_self _ _, ?_⟩
  · intro hmem
    exact ((List.Nodup.mem_erase_iff hnodup).mp hmem).1 rfl
  · intro hmem
    rcases List.mem_cons.mp hmem with h | h
    · exact javaOutputFile_ne_summarizedPath name h
    · exact ((List.Nodup.mem_erase_iff hnodup).mp h).1 rfl

/-- Witness for C3's amended theorem at a concrete one-file filesystem. -/
theorem claim_C3_witness :
    javaOutputFile "x" ∉ (run_mosso (.ran 0 "") ["output/x"] "x" true).2 ∧
    summarizedPath "x" ∈ (run_mosso (.ran 0 "") ["output/x"] "x" false).2 ∧
    javaOutputFile "x" ∉ (run_mosso (.ran 0 "") ["output/x"] "x" false).2 :=
  claim_C3_artifact ["output/x"] "x" "" (by decide) (by decide)

/-- C4: a spawn failure or a non-zero exit status yields `(None, None)` with
no exception escaping (the embedded function returns a plain value), and with
a non-zero exit no artifact reconciliation is attempted — the filesystem
component is returned unchanged. -/
theorem claim_C4_failure_handling :
    (∀ (fs : List String) (name : String) (discard : Bool),
      run_mosso .spawnFail fs name discard = ((none, none), fs)) ∧
    (∀ (rc : Int) (out : String) (fs : List String) (name : String) (discard : Bool),
      rc ≠ 0 → run_mosso (.ran rc out) fs name discard = ((none, none), fs)) := by
  constructor
  · intro fs name discard; rfl
  · intro rc out fs name discard hrc
    rw [run_mosso, if_neg hrc]

/-- Witness for C4 at a concrete failing exit code: nothing is touched. -/
theorem claim_C4_witness :
    run_mosso (.ran 1 "Execution time: 5s") ["output/x"] "x" true =
      ((none, none), ["output/x"]) :=
  claim_C4_failure_handling.2 1 "Execution time: 5s" ["output/x"] "x" true (by decide)

/-! ## Metrics Extractor characterization (C5)

The regex matches are characterized declaratively: a decomposition of the
text with the pattern's pieces.  Maximal munch is pinned down by the context
(the `\s*` run is followed by a `[\d.]` character, never whitespace; the
`[\d.]+` group is followed by `s` or a non-`[\d.]` character). -/

/-- Head of the list fails `p` (or the list is empty). -/
def headFails (p : Char → Bool) : List Char → Prop
  | [] => True
  | c :: _ => p c = false

/-- Declarative statement of `Execution time:\s*([\d.]+)s` matching at the
head of `s` with match group `g`. -/
def timeMatchProp (s g : List Char) : Prop :=
  ∃ w rest, s = timeLabel ++ w ++ g ++ 's' :: rest ∧
    (∀ c ∈ w, isPySpace c = true) ∧ g ≠ [] ∧ (∀ c ∈ g, isDigitDot c = true)

/-- Declarative statement of `Expected Compression Ratio:\s*([\d.]+)` with
`re.IGNORECASE` matching at the head of `s` with match group `g`. -/
def ratioMatchProp (s g : List Char) : Prop :=
  ∃ lab w rest, s = lab ++ w ++ g ++ rest ∧
    lab.map Char.toLower = ratioLabelLower ∧
    (∀ c ∈ w, isPySpace c = true) ∧ g ≠ [] ∧ (∀ c ∈ g, isDigitDot c = true) ∧
    headFails isDigitDot rest

theorem not_space_of_digitDot (c : Char) (h : isDigitDot c = true) :
    isPySpace c = false := by
  cases hps : isPySpace c with
  | false => rfl
  | true =>
    exfalso
    simp only [isPySpace, Bool.or_eq_true, beq_iff_eq] at hps
    rcases hps with ((((h1 | h2) | h3) | h4) | h5) | h6 <;>
      (subst_vars; exact absurd h (by decide))

theorem headFails_dropWhile (p : Char → Bool) (l : List Char) :
    headFails p (l.dropWhile p) := by
  induction l with
  | nil => trivial
  | cons c t ih =>
    rw [List.dropWhile_cons]
    by_cases hc : p c = true
    · rw [if_pos hc]; exact ih
    · rw [if_neg hc]
      simpa [headFails] using Bool.not_eq_true _ ▸ hc

theorem sat_of_mem_takeWhile {p : Char → Bool} {l : List Char} :
    ∀ c ∈ l.takeWhile p, p c = true := by
  induction l with
  | nil => intro c hc; simp at hc
  | cons a t ih =>
    intro c hc
    rw [List.takeWhile_cons] at hc
    by_cases ha : p a = true
    · rw [if_pos ha] at hc
      rcases List.mem_cons.mp hc with h | h
      · subst h; exact ha
      · exact ih c h
    · rw [if_neg ha] at hc
      simp at hc

theorem takeWhile_app_sat {p : Char → Bool} {w rest : List Char}
    (hw : ∀ c ∈ w, p c = true) (hr : headFails p rest) :
    (w ++ rest).takeWhile p = w := by
  rw [List.takeWhile_append_of_pos hw]
  cases rest with
  | nil => simp
  | cons c t =>
    rw [List.takeWhile_cons_of_neg (by simpa [headFails] using hr)]
    simp

theorem dropWhile_app_sat {p : Char → Bool} {w rest : List Char}
    (hw : ∀ c ∈ w, p c = true) (hr : headFails p rest) :
    (w ++ rest).dropWhile p = rest := by
  rw [List.dropWhile_append_of_pos hw]
  cases rest with
  | nil => simp
  | cons c t =>
    exact List.dropWhile_cons_of_neg (by simpa [headFails] using hr)

theorem dropLabelCS_iff {pat s r : List Char} :
    dropLabelCS pat s = some r ↔ s = pat ++ r := by
  induction pat generalizing s with
  | nil => simp [dropLabelCS]
  | cons p ps ih =>
    cases s with
    | nil => simp [dropLabelCS]
    | cons c cs =>
      rw [dropLabelCS]
      by_cases hc : c = p
      · rw [if_pos hc, ih]
        subst hc
        simp
      · rw [if_neg hc]
        constructor
        · intro h; exact absurd h (by simp)
        · intro h
          rw [List.cons_append] at h
          exact absurd (List.cons.injEq .. ▸ h).1 hc

theorem dropLabelCI_iff {pat s r : List Char} :
    dropLabelCI pat s = some r ↔
      ∃ lab, s = lab ++ r ∧ lab.map Char.toLower = pat := by
  induction pat generalizing s with
  | nil =>
    simp only [dropLabelCI]
    constructor
    · intro h
      exact ⟨[], by simpa using Option.some_inj.mp h, rfl⟩
    · rintro ⟨lab, hs, hmap⟩
      have : lab = [] := by simpa using hmap
      subst this
      simp [hs]
  | cons p ps ih =>
    cases s with
    | nil =>
      simp only [dropLabelCI]
      constructor
      · intro h; exact absurd h (by simp)
      · rintro ⟨lab, hs, hmap⟩
        cases lab with
        | nil => simp at hmap
        | cons a t => simp at hs
    | cons c cs =>
      rw [dropLabelCI]
      by_cases hc : c.toLower = p
      · rw [if_pos hc, ih]
        constructor
        · rintro ⟨lab, hcs, hmap⟩
          exact ⟨c :: lab, by simp [hcs], by simp [hmap, hc]⟩
        · rintro ⟨lab, hs, hmap⟩
          cases lab with
          | nil => simp at hmap
          | cons a t =>
            rw [List.cons_append] at hs
            rw [List.map_cons] at hmap
            have ha : a = c := ((List.cons.injEq .. ▸ hs).1).symm
            subst ha
            exact ⟨t, (List.cons.injEq .. ▸ hs).2, (List.cons.injEq .. ▸ hmap).2⟩
      · rw [if_neg hc]
        constructor
        · intro h; exact absurd h (by simp)
        · rintro ⟨lab, hs, hmap⟩
          exfalso
          cases lab with
          | nil => simp at hmap
          | cons a t =>
            rw [List.cons_append] at hs
            rw [List.map_cons] at hmap
            have ha : a = c := ((List.cons.injEq .. ▸ hs).1).symm
            subst ha
            exact hc (List.cons.injEq .. ▸ hmap).1

theorem numGroupAfter_eq_some_iff {s g r : List Char} :
    numGroupAfter s = some (g, r) ↔
      ∃ w, s = w ++ g ++ r ∧ (∀ c ∈ w, isPySpace c = true) ∧ g ≠ [] ∧
        (∀ c ∈ g, isDigitDot c = true) ∧ headFails isDigitDot r := by
  constructor
  · intro h
    rw [numGroupAfter] at h
    by_cases hemp : ((s.dropWhile isPySpace).takeWhile isDigitDot).isEmpty = true
    · rw [if_pos hemp] at h; exact absurd h (by simp)
    · rw [if_neg hemp] at h
      simp only [Option.some.injEq, Prod.mk.injEq] at h
      obtain ⟨hg, hr⟩ := h
      refine ⟨s.takeWhile isPySpace, ?_, sat_of_mem_takeWhile, ?_, ?_, ?_⟩
      · rw [List.append_assoc, ← hg, ← hr, List.takeWhile_append_dropWhile,
          List.takeWhile_append_dropWhile]
      · intro hgnil
        rw [hgnil] at hg
        rw [hg] at hemp
        simp at hemp
      · exact hg ▸ sat_of_mem_takeWhile
      · exact hr ▸ headFails_dropWhile isDigitDot _
  · rintro ⟨w, hs, hw, hgne, hg, hr⟩
    have hghead : headFails isPySpace (g ++ r) := by
      cases g with
      | nil => exact absurd rfl hgne
      | cons a t =>
        simpa [headFails] using not_space_of_digitDot a (hg a (List.mem_cons_self _ _))
    have hdw : s.dropWhile isPySpace = g ++ r := by
      rw [hs, List.append_assoc, dropWhile_app_sat hw hghead]
    have htw : (g ++ r).takeWhile isDigitDot = g := takeWhile_app_sat hg hr
    have hdw2 : (g ++ r).dropWhile isDigitDot = r := dropWhile_app_sat hg hr
    rw [numGroupAfter, hdw, htw, hdw2]
    rw [if_neg (by simpa using hgne)]

theorem timeGroupAt_eq_some_iff {s g : List Char} :
    timeGroupAt s = some g ↔ timeMatchProp s g := by
  constructor
  · intro h
    rw [timeGroupAt] at h
    rw [Option.bind_eq_some] at h
    obtain ⟨rest, hdl, h⟩ := h
    rw [Option.bind_eq_some] at h
    obtain ⟨gr, hng, h⟩ := h
    obtain ⟨g0, r0⟩ := gr
    cases r0 with
    | nil => exact absurd h (by simp)
    | cons c t =>
      simp only at h
      by_cases hc : c = 's'
      · rw [if_pos hc] at h
        subst hc
        have hg0 : g0 = g := Option.some_inj.mp h
        subst hg0
        obtain ⟨w, hrest, hw, hgne, hgd, -⟩ := numGroupAfter_eq_some_iff.mp hng
        have hs := dropLabelCS_iff.mp hdl
        exact ⟨w, t, by rw [hs, hrest]; simp, hw, hgne, hgd⟩
      · rw [if_neg hc] at h
        exact absurd h (by simp)
  · rintro ⟨w, rest, hs, hw, hgne, hgd⟩
    have hdl : dropLabelCS timeLabel s = some (w ++ g ++ 's' :: rest) :=
      dropLabelCS_iff.mpr (by rw [hs]; simp)
    have hng : numGroupAfter (w ++ g ++ 's' :: rest) = some (g, 's' :: rest) :=
      numGroupAfter_eq_some_iff.mpr ⟨w, rfl, hw, hgne, hgd, by simp [headFails, isDigitDot]⟩
    rw [timeGroupAt, hdl, Option.some_bind, hng, Option.some_bind]
    simp

theorem ratioGroupAt_eq_some_iff {s g : List Char} :
    ratioGroupAt s = some g ↔ ratioMatchProp s g := by
  constructor
  · intro h
    rw [ratioGroupAt] at h
    rw [Option.bind_eq_some] at h
    obtain ⟨rest, hdl, h⟩ := h
    rw [Option.map_eq_some'] at h
    obtain ⟨gr, hng, hg0⟩ := h
    obtain ⟨g0, r0⟩ := gr
    obtain ⟨w, hrest, hw, hgne, hgd, hr⟩ := numGroupAfter_eq_some_iff.mp hng
    obtain ⟨lab, hs, hmap⟩ := dropLabelCI_iff.mp hdl
    subst hg0
    exact ⟨lab, w, r0, by rw [hs, hrest]; simp, hmap, hw, hgne, hgd, hr⟩
  · rintro ⟨lab, w, rest, hs, hmap, hw, hgne, hgd, hr⟩
    have hdl : dropLabelCI ratioLabelLower s = some (w ++ g ++ rest) :=
      dropLabelCI_iff.mpr ⟨lab, by rw [hs]; simp, hmap⟩
    have hng : numGroupAfter (w ++ g ++ rest) = some (g, rest) :=
      numGroupAfter_eq_some_iff.mpr ⟨w, rfl, hw, hgne, hgd, hr⟩
    rw [ratioGroupAt, hdl, Option.some_bind, hng, Option.map_some']

theorem timeGroupAt_eq_none_iff {s : List Char} :
    timeGroupAt s = none ↔ ∀ g, ¬ timeMatchProp s g := by
  constructor
  · intro h g hm
    rw [timeGroupAt_eq_some_iff.mpr hm] at h
    exact absurd h (by simp)
  · intro h
    cases hg : timeGroupAt s with
    | none => rfl
    | some g => exact absurd (timeGroupAt_eq_some_iff.mp hg) (h g)

theorem ratioGroupAt_eq_none_iff {s : List Char} :
    ratioGroupAt s = none ↔ ∀ g, ¬ ratioMatchProp s g := by
  constructor
  · intro h g hm
    rw [ratioGroupAt_eq_some_iff.mpr hm] at h
    exact absurd h (by simp)
  · intro h
    cases hg : ratioGroupAt s with
    | none => rfl
    | some g => exact absurd (ratioGroupAt_eq_some_iff.mp hg) (h g)

theorem scanFirst_eq_some_iff {α : Type} (f : List Char → Option α)
    (s : List Char) (a : α) :
    scanFirst f s = some a ↔
      ∃ i, i ≤ s.length ∧ f (s.drop i) = some a ∧ ∀ j < i, f (s.drop j) = none := by
  induction s with
  | nil =>
    rw [scanFirst]
    constructor
    · intro h
      exact ⟨0, Nat.le_refl 0, by simpa using h, by omega⟩
    · rintro ⟨i, hi, hf, -⟩
      have : i = 0 := Nat.le_zero.mp hi
      subst this
      simpa using hf
  | cons c t ih =>
    rw [scanFirst]
    cases hf : f (c :: t) with
    | some a' =>
      constructor
      · intro h
        have : a' = a := by simpa using h
        subst this
        exact ⟨0, Nat.zero_le _, by simpa using hf, by omega⟩
      · rintro ⟨i, hi, hfi, hnone⟩
        cases i with
        | zero =>
          rw [List.drop_zero] at hfi
          rw [hf] at hfi
          exact hfi
        | succ n =>
          have h0 := hnone 0 (Nat.succ_pos n)
          rw [List.drop_zero] at h0
          rw [hf] at h0
          exact absurd h0 (by simp)
    | none =>
      rw [ih]
      constructor
      · rintro ⟨i, hi, hfi, hnone⟩
        refine ⟨i + 1, by simpa using Nat.succ_le_succ hi, by simpa using hfi, ?_⟩
        intro j hj
        cases j with
        | zero => simpa using hf
        | succ m => simpa using hnone m (by omega)
      · rintro ⟨i, hi, hfi, hnone⟩
        cases i with
        | zero =>
          rw [List.drop_zero] at hfi
          rw [hf] at hfi
          exact absurd hfi (by simp)
        | succ n =>
          refine ⟨n, by simpa using hi, by simpa using hfi, ?_⟩
          intro j hj
          simpa using hnone (j + 1) (by omega)

theorem scanFirst_eq_none_iff {α : Type} (f : List Char → Option α) (s : List Char) :
    scanFirst f s = none ↔ ∀ i, f (s.drop i) = none := by
  induction s with
  | nil =>
    rw [scanFirst]
    constructor
    · intro h i
      simpa [List.drop_nil] using h
    · intro h
      simpa using h 0
  | cons c t ih =>
    rw [scanFirst]
    cases hf : f (c :: t) with
    | some a =>
      constructor
      · intro h; exact absurd h (by simp)
      · intro h
        have h0 := h 0
        rw [List.drop_zero] at h0
        rw [hf] at h0
        exact absurd h0 (by simp)
    | none =>
      rw [ih]
      constructor
      · intro h i
        cases i with
        | zero => simpa using hf
        | succ n => simpa using h n
      · intro h n
        simpa using h (n + 1)

/-- Captured-output text of the spec's extractor round-trip example. -/
def sampleOutText : String :=
  "progress line\nExecution time: 12.345s\nExpected compression ratio: 0.6789\n"

theorem pyFloat_sample_time : pyFloat "12.345".toList = some (2469 / 200) := by
  simp only [pyFloat]
  norm_num
  refine ⟨by decide, ?_⟩
  rw [if_neg (by decide), if_pos (by decide), if_neg (by decide)]
  rw [show List.takeWhile (fun c => c != '.') ['1', '2', '.', '3', '4', '5'] = ['1', '2']
    from by decide]
  rw [show (List.dropWhile (fun c => c != '.') ['1', '2', '.', '3', '4', '5']).tail
    = ['3', '4', '5'] from by decide]
  rw [show digitsToNat ['1', '2'] = 12 from by decide]
  rw [show digitsToNat ['3', '4', '5'] = 345 from by decide]
  rw [show (List.dropWhile (fun c => c != '.') ['1', '2', '.', '3', '4', '5']).length - 1 = 3
    from by decide]
  norm_num

theorem pyFloat_sample_ratio : pyFloat "0.6789".toList = some (6789 / 10000) := by
  simp only [pyFloat]
  norm_num
  refine ⟨by decide, ?_⟩
  rw [if_neg (by decide), if_pos (by decide), if_neg (by decide)]
  rw [show List.takeWhile (fun c => c != '.') ['0', '.', '6', '7', '8', '9'] = ['0']
    from by decide]
  rw [show (List.dropWhile (fun c => c != '.') ['0', '.', '6', '7', '8', '9']).tail
    = ['6', '7', '8', '9'] from by decide]
  rw [show digitsToNat ['0'] = 0 from by decide]
  rw [show digitsToNat ['6', '7', '8', '9'] = 6789 from by decide]
  rw [show (List.dropWhile (fun c => c != '.') ['0', '.', '6', '7', '8', '9']).length - 1 = 4
    from by decide]
  norm_num

/-- C5: the Metrics Extractor is exactly leftmost-first matching of the two
patterns — for every captured text, the time scanner returns group `g` iff
some position matches the case-sensitive `Execution time:\s*([\d.]+)s`
decomposition with group `g` and no earlier position matches, and returns
`none` iff no position matches; dually for the case-insensitive
`Expected Compression Ratio:\s*([\d.]+)` scanner; and concretely the spec's
sample text yields `(12.345, 0.6789)` while pattern-free text yields
`(absent, absent)`. -/
theorem claim_C5_extractor :
    (∀ (s : String) (g : List Char),
      scanFirst timeGroupAt s.toList = some g ↔
        ∃ i, i ≤ s.toList.length ∧ timeMatchProp (s.toList.drop i) g ∧
          ∀ j < i, ∀ g', ¬ timeMatchProp (s.toList.drop j) g') ∧
    (∀ s : String, scanFirst timeGroupAt s.toList = none ↔
        ∀ i g, ¬ timeMatchProp (s.toList.drop i) g) ∧
    (∀ (s : String) (g : List Char),
      scanFirst ratioGroupAt s.toList = some g ↔
        ∃ i, i ≤ s.toList.length ∧ ratioMatchProp (s.toList.drop i) g ∧
          ∀ j < i, ∀ g', ¬ ratioMatchProp (s.toList.drop j) g') ∧
    (∀ s : String, scanFirst ratioGroupAt s.toList = none ↔
        ∀ i g, ¬ ratioMatchProp (s.toList.drop i) g) ∧
    extractMetrics sampleOutText = .ok (some (2469 / 200), some (6789 / 10000)) ∧
    extractMetrics "no patterns here" = .ok (none, none) := by
  refine ⟨?_, ?_, ?_, ?_, ?_, ?_⟩
  · intro s g
    rw [scanFirst_eq_some_iff]
    constructor
    · rintro ⟨i, hi, hfi, hnone⟩
      exact ⟨i, hi, timeGroupAt_eq_some_iff.mp hfi,
        fun j hj => timeGroupAt_eq_none_iff.mp (hnone j hj)⟩
    · rintro ⟨i, hi, hm, hnone⟩
      exact ⟨i, hi, timeGroupAt_eq_some_iff.mpr hm,
        fun j hj => timeGroupAt_eq_none_iff.mpr (hnone j hj)⟩
  · intro s
    rw [scanFirst_eq_none_iff]
    constructor
    · intro h i g
      exact (timeGroupAt_eq_none_iff.mp (h i)) g
    · intro h i
      exact timeGroupAt_eq_none_iff.mpr (h i)
  · intro s g
    rw [scanFirst_eq_some_iff]
    constructor
    · rintro ⟨i, hi, hfi, hnone⟩
      exact ⟨i, hi, ratioGroupAt_eq_some_iff.mp hfi,
        fun j hj => ratioGroupAt_eq_none_iff.mp (hnone j hj)⟩
    · rintro ⟨i, hi, hm, hnone⟩
      exact ⟨i, hi, ratioGroupAt_eq_some_iff.mpr hm,
        fun j hj => ratioGroupAt_eq_none_iff.mpr (hnone j hj)⟩
  · intro s
    rw [scanFirst_eq_none_iff]
    constructor
    · intro h i g
      exact (ratioGroupAt_eq_none_iff.mp (h i)) g
    · intro h i
      exact ratioGroupAt_eq_none_iff.mpr (h i)
  · have ht : scanFirst timeGroupAt sampleOutText.toList = some "12.345".toList := by decide
    have hr : scanFirst ratioGroupAt sampleOutText.toList = some "0.6789".toList := by decide
    simp only [extractMetrics, ht, hr, pyFloat_sample_time, pyFloat_sample_ratio]
  · rfl

/-- Witness for C5: the characterization applied at a concrete text
containing a time match, producing the declarative leftmost-match fact. -/
theorem claim_C5_witness :
    ∃ i, i ≤ ("x Execution time: 5s".toList).length ∧
      timeMatchProp ("x Execution time: 5s".toList.drop i) ['5'] ∧
      ∀ j < i, ∀ g', ¬ timeMatchProp ("x Execution time: 5s".toList.drop j) g' :=
  (claim_C5_extractor.1 "x Execution time: 5s" ['5']).mp (by decide)

/-! ## Sweep Controller lemmas (C6, C7) -/

theorem recordFor_prep_none {param : SweepParam} {agg : AggArgs → Option ℚ × Option ℚ}
    {prep : String × String → Option String} {val : Int} {ds : String × String}
    (h : prep ds = none) : recordFor param agg prep val ds = .ok none := by
  rw [recordFor, h]

theorem recordFor_prep_some {param : SweepParam} {agg : AggArgs → Option ℚ × Option ℚ}
    {prep : String × String → Option String} {val : Int} {ds : String × String}
    {path : String} (h : prep ds = some path) :
    recordFor param agg prep val ds =
      (match (agg (baselineArgs path)).1, (agg (variantArgs param val path)).1 with
       | some tv1, some tv2 =>
         if tv1 = 0 then .error ()
         else
           match (agg (baselineArgs path)).2, (agg (variantArgs param val path)).2 with
           | some rv1, some rv2 =>
             if rv1 = 0 then .error ()
             else .ok (some ⟨datasetName ds, val, tv1, tv2, some rv1, some rv2⟩)
           | _, _ => .error ()
       | _, _ => .ok none) := by
  rw [recordFor, h]

theorem recordFor_success {param : SweepParam} {agg : AggArgs → Option ℚ × Option ℚ}
    {prep : String × String → Option String} {val : Int} {ds : String × String}
    {path : String} {t1 r1v t2 r2v : ℚ} (hprep : prep ds = some path)
    (h1 : (agg (baselineArgs path)).1 = some t1)
    (h1r : (agg (baselineArgs path)).2 = some r1v)
    (h2 : (agg (variantArgs param val path)).1 = some t2)
    (h2r : (agg (variantArgs param val path)).2 = some r2v)
    (ht : t1 ≠ 0) (hr : r1v ≠ 0) :
    recordFor param agg prep val ds =
      .ok (some ⟨datasetName ds, val, t1, t2, some r1v, some r2v⟩) := by
  rw [recordFor_prep_some hprep, h1, h2]
  dsimp only
  rw [if_neg ht, h1r, h2r]
  dsimp only
  rw [if_neg hr]

theorem recordFor_some_elim {param : SweepParam} {agg : AggArgs → Option ℚ × Option ℚ}
    {prep : String × String → Option String} {val : Int} {ds : String × String}
    {row : SweepRow} (h : recordFor param agg prep val ds = .ok (some row)) :
    ∃ path, prep ds = some path ∧
      (agg (baselineArgs path)).1 = some row.timeOriginal ∧
      (agg (baselineArgs path)).2 = row.ratioOriginal ∧
      (agg (variantArgs param val path)).1 = some row.timeHybrid ∧
      (agg (variantArgs param val path)).2 = row.ratioHybrid ∧
      row.dataset = datasetName ds ∧ row.value = val := by
  cases hprep : prep ds with
  | none => rw [recordFor_prep_none hprep] at h; exact absurd h (by simp)
  | some path =>
    rw [recordFor_prep_some hprep] at h
    cases h1 : (agg (baselineArgs path)).1 with
    | none =>
      cases h2 : (agg (variantArgs param val path)).1 with
      | none => rw [h1, h2] at h; exact absurd h (by simp)
      | some t2 => rw [h1, h2] at h; exact absurd h (by simp)
    | some t1 =>
      cases h2 : (agg (variantArgs param val path)).1 with
      | none => rw [h1, h2] at h; exact absurd h (by simp)
      | some t2 =>
        rw [h1, h2] at h
        dsimp only at h
        by_cases ht : t1 = 0
        · rw [if_pos ht] at h; exact absurd h (by simp)
        · rw [if_neg ht] at h
          cases h1r : (agg (baselineArgs path)).2 with
          | none =>
            cases h2r : (agg (variantArgs param val path)).2 with
            | none => rw [h1r, h2r] at h; exact absurd h (by simp)
            | some r2v => rw [h1r, h2r] at h; exact absurd h (by simp)
          | some r1v =>
            cases h2r : (agg (variantArgs param val path)).2 with
            | none => rw [h1r, h2r] at h; exact absurd h (by simp)
            | some r2v =>
              rw [h1r, h2r] at h
              dsimp only at h
              by_cases hr : r1v = 0
              · rw [if_pos hr] at h; exact absurd h (by simp)
              · rw [if_neg hr] at h
                simp only [Except.ok.injEq, Option.some.injEq] at h
                subst h
                exact ⟨path, rfl, h1, h1r, h2, h2r, rfl, rfl⟩

theorem recordFor_error_of_zero_time {param : SweepParam}
    {agg : AggArgs → Option ℚ × Option ℚ} {prep : String × String → Option String}
    {val : Int} {ds : String × String} {path : String} {t2 : ℚ}
    (hprep : prep ds = some path)
    (h1 : (agg (baselineArgs path)).1 = some 0)
    (h2 : (agg (variantArgs param val path)).1 = some t2) :
    recordFor param agg prep val ds = .error () := by
  rw [recordFor_prep_some hprep, h1, h2]
  dsimp only
  rw [if_pos rfl]

theorem runSweepCells_nil (param : SweepParam) (agg : AggArgs → Option ℚ × Option ℚ)
    (prep : String × String → Option String) (val : Int) :
    runSweepCells param agg prep val [] = .ok [] := rfl

theorem runSweepCells_cons_error {param : SweepParam}
    {agg : AggArgs → Option ℚ × Option ℚ} {prep : String × String → Option String}
    {val : Int} {ds : String × String} {rest : List (String × String)}
    (h : recordFor param agg prep val ds = .error ()) :
    runSweepCells param agg prep val (ds :: rest) = .error () := by
  rw [runSweepCells, h]

theorem runSweepCells_cons_skip {param : SweepParam}
    {agg : AggArgs → Option ℚ × Option ℚ} {prep : String × String → Option String}
    {val : Int} {ds : String × String} {rest : List (String × String)}
    (h : recordFor param agg prep val ds = .ok none) :
    runSweepCells param agg prep val (ds :: rest) =
      runSweepCells param agg prep val rest := by
  rw [runSweepCells, h]

theorem runSweepCells_cons_row {param : SweepParam}
    {agg : AggArgs → Option ℚ × Option ℚ} {prep : String × String → Option String}
    {val : Int} {ds : String × String} {rest : List (String × String)}
    {row : SweepRow} (h : recordFor param agg prep val ds = .ok (some row)) :
    runSweepCells param agg prep val (ds :: rest) =
      (match runSweepCells param agg prep val rest with
       | .error e => .error e
       | .ok rows => .ok (row :: rows)) := by
  rw [runSweepCells, h]

theorem mem_of_runSweepCells {param : SweepParam}
    {agg : AggArgs → Option ℚ × Option ℚ} {prep : String × String → Option String}
    {val : Int} :
    ∀ (datasets : List (String × String)) (rows : List SweepRow),
      runSweepCells param agg prep val datasets = .ok rows → ∀ row ∈ rows,
      ∃ ds ∈ datasets, recordFor param agg prep val ds = .ok (some row) := by
  intro datasets
  induction datasets with
  | nil =>
    intro rows h row hrow
    rw [runSweepCells_nil] at h
    simp only [Except.ok.injEq] at h
    subst h
    simp at hrow
  | cons d rest ih =>
    intro rows h row hrow
    cases hc : recordFor param agg prep val d with
    | error e =>
      cases e
      rw [runSweepCells_cons_error hc] at h
      exact absurd h (by simp)
    | ok o =>
      cases o with
      | none =>
        rw [runSweepCells_cons_skip hc] at h
        obtain ⟨ds, hds, hrec⟩ := ih rows h row hrow
        exact ⟨ds, List.mem_cons_of_mem _ hds, hrec⟩
      | some row' =>
        rw [runSweepCells_cons_row hc] at h
        cases hrest : runSweepCells param agg prep val rest with
        | error e =>
          rw [hrest] at h
          dsimp only at h
          exact absurd h (by simp)
        | ok rows' =>
          rw [hrest] at h
          dsimp only at h
          simp only [Except.ok.injEq] at h
          subst h
          rcases List.mem_cons.mp hrow with he | he
          · subst he
            exact ⟨d, List.mem_cons_self _ _, hc⟩
          · obtain ⟨ds, hds, hrec⟩ := ih rows' hrest row he
            exact ⟨ds, List.mem_cons_of_mem _ hds, hrec⟩

/-- Predicate selecting the rows of one (dataset-name, value) cell. -/
def rowFor (n : String) (val : Int) (r : SweepRow) : Bool :=
  decide (r.dataset = n ∧ r.value = val)

theorem countP_runSweepCells_of_ne {param : SweepParam}
    {agg : AggArgs → Option ℚ × Option ℚ} {prep : String × String → Option String}
    {v val : Int} {n : String} {datasets : List (String × String)}
    {rows : List SweepRow} (hv : v ≠ val)
    (h : runSweepCells param agg prep v datasets = .ok rows) :
    rows.countP (rowFor n val) = 0 := by
  rw [List.countP_eq_zero]
  intro row hrow
  obtain ⟨ds, -, hrec⟩ := mem_of_runSweepCells datasets rows h row hrow
  obtain ⟨-, -, -, -, -, -, -, hval⟩ := recordFor_some_elim hrec
  simp only [rowFor, decide_eq_true_eq]
  rintro ⟨-, hveq⟩
  exact hv (hval ▸ hveq)

theorem countP_runSweepCells_of_mem {param : SweepParam}
    {agg : AggArgs → Option ℚ × Option ℚ} {prep : String × String → Option String}
    {val : Int} {ds : String × String} {row : SweepRow}
    (hcell : recordFor param agg prep val ds = .ok (some row)) :
    ∀ (datasets : List (String × String)) (rows : List SweepRow),
      ds ∈ datasets → (datasets.map datasetName).Nodup →
      runSweepCells param agg prep val datasets = .ok rows →
      rows.countP (rowFor (datasetName ds) val) = 1 := by
  intro datasets
  induction datasets with
  | nil => intro rows hds; simp at hds
  | cons d rest ih =>
    intro rows hds hnn hcells
    rw [List.map_cons, List.nodup_cons] at hnn
    rcases List.mem_cons.mp hds with hd | hd
    · subst hd
      rw [runSweepCells_cons_row hcell] at hcells
      cases hrest : runSweepCells param agg prep val rest with
      | error e =>
        rw [hrest] at hcells
        dsimp only at hcells
        exact absurd hcells (by simp)
      | ok rows' =>
        rw [hrest] at hcells
        dsimp only at hcells
        simp only [Except.ok.injEq] at hcells
        subst hcells
        rw [List.countP_cons]
        have hself : rowFor (datasetName ds) val row = true := by
          obtain ⟨-, -, -, -, -, -, hname, hval⟩ := recordFor_some_elim hcell
          simp [rowFor, hname, hval]
        rw [if_pos hself]
        have hzero : rows'.countP (rowFor (datasetName ds) val) = 0 := by
          rw [List.countP_eq_zero]
          intro row' hrow'
          obtain ⟨ds', hds', hrec'⟩ := mem_of_runSweepCells rest rows' hrest row' hrow'
          obtain ⟨-, -, -, -, -, -, hname', -⟩ := recordFor_some_elim hrec'
          simp only [rowFor, decide_eq_true_eq]
          rintro ⟨hn, -⟩
          have hmem := List.mem_map_of_mem datasetName hds'
          rw [← hname', hn] at hmem
          exact hnn.1 hmem
        rw [hzero]
    · cases hc : recordFor param agg prep val d with
      | error e =>
        cases e
        rw [runSweepCells_cons_error hc] at hcells
        exact absurd hcells (by simp)
      | ok o =>
        cases o with
        | none =>
          rw [runSweepCells_cons_skip hc] at hcells
          exact ih rows hd hnn.2 hcells
        | some rowd =>
          rw [runSweepCells_cons_row hc] at hcells
          cases hrest : runSweepCells param agg prep val rest with
          | error e =>
            rw [hrest] at hcells
            dsimp only at hcells
            exact absurd hcells (by simp)
          | ok rows' =>
            rw [hrest] at hcells
            dsimp only at hcells
            simp only [Except.ok.injEq] at hcells
            subst hcells
            rw [List.countP_cons]
            have hne : rowFor (datasetName ds) val rowd = false := by
              obtain ⟨-, -, -, -, -, -, hname', -⟩ := recordFor_some_elim hc
              simp only [rowFor, decide_eq_false_iff_not]
              rintro ⟨hn, -⟩
              have hmem := List.mem_map_of_mem datasetName hd
              rw [← hn, hname'] at hmem
              exact hnn.1 hmem
            rw [if_neg (by simp [hne])]
            simpa using ih rows' hd hnn.2 hrest

theorem runSweepVals_nil (param : SweepParam) (agg : AggArgs → Option ℚ × Option ℚ)
    (prep : String × String → Option String) (datasets : List (String × String)) :
    runSweepVals param agg prep [] datasets = .ok [] := rfl

theorem runSweepVals_cons_ok {param : SweepParam}
    {agg : AggArgs → Option ℚ × Option ℚ} {prep : String × String → Option String}
    {v : Int} {vs : List Int} {datasets : List (String × String)}
    {rows1 rows2 : List SweepRow}
    (h1 : runSweepCells param agg prep v datasets = .ok rows1)
    (h2 : runSweepVals param agg prep vs datasets = .ok rows2) :
    runSweepVals param agg prep (v :: vs) datasets = .ok (rows1 ++ rows2) := by
  rw [runSweepVals, h1]
  dsimp only
  rw [h2]

theorem runSweepVals_cons_elim {param : SweepParam}
    {agg : AggArgs → Option ℚ × Option ℚ} {prep : String × String → Option String}
    {v : Int} {vs : List Int} {datasets : List (String × String)}
    {rows : List SweepRow}
    (h : runSweepVals param agg prep (v :: vs) datasets = .ok rows) :
    ∃ rows1 rows2, runSweepCells param agg prep v datasets = .ok rows1 ∧
      runSweepVals param agg prep vs datasets = .ok rows2 ∧ rows = rows1 ++ rows2 := by
  rw [runSweepVals] at h
  cases h1 : runSweepCells param agg prep v datasets with
  | error e =>
    rw [h1] at h
    dsimp only at h
    exact absurd h (by simp)
  | ok rows1 =>
    rw [h1] at h
    dsimp only at h
    cases h2 : runSweepVals param agg prep vs datasets with
    | error e =>
      rw [h2] at h
      dsimp only at h
      exact absurd h (by simp)
    | ok rows2 =>
      rw [h2] at h
      dsimp only at h
      simp only [Except.ok.injEq] at h
      exact ⟨rows1, rows2, rfl, rfl, h.symm⟩

theorem countP_runSweepVals_of_not_mem {param : SweepParam}
    {agg : AggArgs → Option ℚ × Option ℚ} {prep : String × String → Option String}
    {val : Int} {n : String} {datasets : List (String × String)} :
    ∀ (vals : List Int) (rows : List SweepRow), val ∉ vals →
      runSweepVals param agg prep vals datasets = .ok rows →
      rows.countP (rowFor n val) = 0 := by
  intro vals
  induction vals with
  | nil =>
    intro rows _ h
    rw [runSweepVals_nil] at h
    simp only [Except.ok.injEq] at h
    subst h
    rfl
  | cons v vs ih =>
    intro rows hval h
    obtain ⟨rows1, rows2, h1, h2, hr⟩ := runSweepVals_cons_elim h
    subst hr
    rw [List.countP_append]
    rw [countP_runSweepCells_of_ne
      (fun he => hval (by rw [← he]; exact List.mem_cons_self _ _)) h1]
    rw [ih rows2 (fun hm => hval (List.mem_cons_of_mem _ hm)) h2]

/-- C6 counterexample: the claim says that when both aggregations succeed a
record is emitted for the pair.  With a baseline aggregation returning mean
time `0.0` (a successful aggregation — both means present) the percentage
feedback `t_diff = ((t1 - t2) / t1) * 100` at line 118 of
`parameter_sweep.py` raises `ZeroDivisionError`, the whole sweep aborts, and
no record at all is emitted. -/
theorem claim_C6_counterexample :
    runSweepVals SweepParam.samples
      (fun a => if a.jar = "mosso-original.jar"
        then ((some 0 : Option ℚ), (some 1 : Option ℚ)) else (some 1, some 1))
      (fun _ => some "p") [10] [("u", "f.txt")] = .error () ∧
    ((fun a : AggArgs => if a.jar = "mosso-original.jar"
        then ((some 0 : Option ℚ), (some 1 : Option ℚ)) else (some 1, some 1))
      (baselineArgs "p")).1 = some 0 ∧
    ((fun a : AggArgs => if a.jar = "mosso-original.jar"
        then ((some 0 : Option ℚ), (some 1 : Option ℚ)) else (some 1, some 1))
      (variantArgs SweepParam.samples 10 "p")).1 = some 1 := by
  refine ⟨?_, by decide, by decide⟩
  have h2 : ((fun a : AggArgs => if a.jar = "mosso-original.jar"
      then ((some 0 : Option ℚ), (some 1 : Option ℚ)) else (some 1, some 1))
      (variantArgs SweepParam.samples 10 "p")).1 = some 1 := by decide
  have hcell : recordFor SweepParam.samples
      (fun a => if a.jar = "mosso-original.jar"
        then ((some 0 : Option ℚ), (some 1 : Option ℚ)) else (some 1, some 1))
      (fun _ => some "p") 10 ("u", "f.txt") = .error () :=
    recordFor_error_of_zero_time rfl (by decide) h2
  rw [show ([10] : List Int) = 10 :: [] from rfl]
  rw [runSweepVals, runSweepCells_cons_error hcell]

/-- C6 (amended): structure of the Sweep Controller.  (i) The configured
argument tuples: the baseline aggregation always runs at `(120, 3, 1000)`
with no candidate-count, independent of the sweep, and the variant runs with
the swept parameter at the current value and the other parameters at their
`SWEEP_CONFIG` defaults `(120, 3, 5)`.  (ii) Every emitted row for a
`(dataset, value)` pair is built from exactly those two aggregator results.
(iii) When preparation and both aggregations succeed with nonzero baseline
means — otherwise the percentage feedback divides by zero and the sweep
aborts, emitting nothing — and the sweep as a whole completes, exactly one
row is emitted per `(dataset, value)` pair.  (iv) Rows of the same dataset
agree on the dataset name and the whole baseline result, differing only in
the swept value and the variant's results.  (v) With a single dataset whose
baseline means are present and nonzero and whose variant aggregation
succeeds at every value, the sweep completes and the emitted values are the
configured list in order. -/
theorem claim_C6_sweep :
    (∀ path, baselineArgs path = ⟨"mosso-original.jar", path, 120, 3, 1000, none⟩) ∧
    (∀ param val path, variantArgs param val path =
      ⟨"mosso-hybrid.jar", path,
        (if param = .samples then val else 120),
        (if param = .escape then val else 3), 1000,
        some (if param = .b then val else 5)⟩) ∧
    (∀ (param : SweepParam) (agg : AggArgs → Option ℚ × Option ℚ)
        (prep : String × String → Option String) (val : Int) (ds : String × String)
        (row : SweepRow), recordFor param agg prep val ds = .ok (some row) →
      ∃ path, prep ds = some path ∧
        (agg (baselineArgs path)).1 = some row.timeOriginal ∧
        (agg (baselineArgs path)).2 = row.ratioOriginal ∧
        (agg (variantArgs param val path)).1 = some row.timeHybrid ∧
        (agg (variantArgs param val path)).2 = row.ratioHybrid ∧
        row.dataset = datasetName ds ∧ row.value = val) ∧
    (∀ (param : SweepParam) (agg : AggArgs → Option ℚ × Option ℚ)
        (prep : String × String → Option String) (val : Int)
        (datasets : List (String × String)) (ds : String × String)
        (path : String) (t1 r1v t2 r2v : ℚ),
      ds ∈ datasets → (datasets.map datasetName).Nodup →
      prep ds = some path →
      (agg (baselineArgs path)).1 = some t1 →
      (agg (baselineArgs path)).2 = some r1v →
      (agg (variantArgs param val path)).1 = some t2 →
      (agg (variantArgs param val path)).2 = some r2v →
      t1 ≠ 0 → r1v ≠ 0 →
      ∀ (vals : List Int) (rows : List SweepRow),
        vals.Nodup → val ∈ vals →
        runSweepVals param agg prep vals datasets = .ok rows →
        rows.countP (rowFor (datasetName ds) val) = 1) ∧
    (∀ (param : SweepParam) (agg : AggArgs → Option ℚ × Option ℚ)
        (prep : String × String → Option String) (v1 v2 : Int)
        (ds : String × String) (row1 row2 : SweepRow),
      recordFor param agg prep v1 ds = .ok (some row1) →
      recordFor param agg prep v2 ds = .ok (some row2) →
      row1.dataset = row2.dataset ∧ row1.timeOriginal = row2.timeOriginal ∧
        row1.ratioOriginal = row2.ratioOriginal) ∧
    (∀ (param : SweepParam) (agg : AggArgs → Option ℚ × Option ℚ)
        (prep : String × String → Option String) (ds : String × String)
        (path : String) (t1 r1v : ℚ),
      prep ds = some path →
      (agg (baselineArgs path)).1 = some t1 →
      (agg (baselineArgs path)).2 = some r1v →
      t1 ≠ 0 → r1v ≠ 0 →
      ∀ vals : List Int,
        (∀ val ∈ vals, ∃ t2 r2v, (agg (variantArgs param val path)).1 = some t2 ∧
          (agg (variantArgs param val path)).2 = some r2v) →
        ∃ rows, runSweepVals param agg prep vals [ds] = .ok rows ∧
          rows.map (fun r => r.value) = vals) := by
  refine ⟨fun _ => rfl, fun _ _ _ => rfl, ?_, ?_, ?_, ?_⟩
  · intro param agg prep val ds row h
    exact recordFor_some_elim h
  · intro param agg prep val datasets ds path t1 r1v t2 r2v hds hnn hprep h1 h1r h2 h2r
      ht hr vals
    induction vals with
    | nil => intro rows _ hval; simp at hval
    | cons v vs ih =>
      intro rows hnv hval hok
      rw [List.nodup_cons] at hnv
      obtain ⟨rows1, rows2, hc1, hc2, hrw⟩ := runSweepVals_cons_elim hok
      subst hrw
      rw [List.countP_append]
      rcases List.mem_cons.mp hval with hv | hv
      · subst hv
        rw [countP_runSweepCells_of_mem
          (recordFor_success hprep h1 h1r h2 h2r ht hr) datasets rows1 hds hnn hc1]
        rw [countP_runSweepVals_of_not_mem vs rows2 hnv.1 hc2]
      · have hvne : v ≠ val := fun he => hnv.1 (he ▸ hv)
        rw [countP_runSweepCells_of_ne hvne hc1]
        rw [Nat.zero_add]
        exact ih rows2 hnv.2 hv hc2
  · intro param agg prep v1 v2 ds row1 row2 h1 h2
    obtain ⟨p1, hp1, hb1, hr1, -, -, hn1, -⟩ := recordFor_some_elim h1
    obtain ⟨p2, hp2, hb2, hr2, -, -, hn2, -⟩ := recordFor_some_elim h2
    have hp : p1 = p2 := Option.some_inj.mp (hp1 ▸ hp2)
    subst hp
    refine ⟨hn1.trans hn2.symm, ?_, hr1.symm.trans hr2⟩
    exact Option.some_inj.mp (hb1.symm.trans hb2)
  · intro param agg prep ds path t1 r1v hprep h1 h1r ht hr vals
    induction vals with
    | nil => intro _; exact ⟨[], rfl, rfl⟩
    | cons v vs ih =>
      intro hsucc
      obtain ⟨t2, r2v, h2, h2r⟩ := hsucc v (List.mem_cons_self _ _)
      have hcell := recordFor_success hprep h1 h1r h2 h2r ht hr
      have hcells : runSweepCells param agg prep v [ds] =
          .ok [⟨datasetName ds, v, t1, t2, some r1v, some r2v⟩] := by
        rw [runSweepCells_cons_row hcell]
        rfl
      obtain ⟨rows2, hok2, hmap2⟩ := ih (fun val hv => hsucc val (List.mem_cons_of_mem _ hv))
      refine ⟨⟨datasetName ds, v, t1, t2, some r1v, some r2v⟩ :: rows2, ?_, ?_⟩
      · exact runSweepVals_cons_ok hcells hok2
      · rw [List.map_cons, hmap2]

/-- Witness for C6's amended theorem: a concrete sweep over values `[10, 20]`
with one dataset and an always-successful nonzero oracle completes, emits
exactly one row for the cell `("data", 10)`, and emits the values in order. -/
theorem claim_C6_witness :
    runSweepVals SweepParam.samples (fun _ => ((some 1 : Option ℚ), (some 1 : Option ℚ)))
      (fun _ => some "p") [10, 20] [("u", "data.txt")] =
      .ok [⟨"data", 10, 1, 1, some 1, some 1⟩, ⟨"data", 20, 1, 1, some 1, some 1⟩] ∧
    List.countP (rowFor "data" 10)
      [⟨"data", 10, 1, 1, some 1, some 1⟩, ⟨"data", 20, 1, 1, some 1, some 1⟩] = 1 ∧
    List.map (fun r => r.value)
      ([⟨"data", 10, 1, 1, some 1, some 1⟩,
        (⟨"data", 20, 1, 1, some 1, some 1⟩ : SweepRow)]) = [10, 20] := by
  refine ⟨rfl, ?_, ?_⟩
  · have h := claim_C6_sweep.2.2.2.1 SweepParam.samples
      (fun _ => ((some 1 : Option ℚ), (some 1 : Option ℚ))) (fun _ => some "p")
      10 [("u", "data.txt")] ("u", "data.txt") "p" 1 1 1 1
      (by decide) (by decide) (by decide) (by decide) (by decide) (by decide)
      (by decide) (by decide) (by decide) [10, 20]
      [⟨"data", 10, 1, 1, some 1, some 1⟩, ⟨"data", 20, 1, 1, some 1, some 1⟩]
      (by decide) (by decide) rfl
    rwa [show datasetName ("u", "data.txt") = "data" from by decide] at h
  · obtain ⟨rows, hok, hmap⟩ := claim_C6_sweep.2.2.2.2.2 SweepParam.samples
      (fun _ => ((some 1 : Option ℚ), (some 1 : Option ℚ))) (fun _ => some "p")
      ("u", "data.txt") "p" 1 1 (by decide) (by decide) (by decide) (by decide)
      (by decide) [10, 20] (fun val _ => ⟨1, 1, rfl, rfl⟩)
    have hconc : runSweepVals SweepParam.samples
        (fun _ => ((some 1 : Option ℚ), (some 1 : Option ℚ))) (fun _ => some "p")
        [10, 20] [("u", "data.txt")] =
        .ok [⟨datasetName ("u", "data.txt"), 10, 1, 1, some 1, some 1⟩,
             ⟨datasetName ("u", "data.txt"), 20, 1, 1, some 1, some 1⟩] := rfl
    have heq : rows = [⟨datasetName ("u", "data.txt"), 10, 1, 1, some 1, some 1⟩,
        ⟨datasetName ("u", "data.txt"), 20, 1, 1, some 1, some 1⟩] := by
      have := hok.symm.trans hconc
      simpa using this
    subst heq
    rwa [show datasetName ("u", "data.txt") = "data" from by decide] at hmap

/-- C7 counterexample: with an aggregator oracle that reports entirely absent
means, the sweep's emitted sequence for one value and one dataset is empty —
the combination is omitted (the `None`-guard `continue` fires before the
percentage-feedback lines), it is not recorded as a row with absent fields as
the claim asserts. -/
theorem claim_C7_counterexample :
    runSweepVals SweepParam.samples (fun _ => (none, none)) (fun _ => some "p")
      [10] [("u", "f.txt")] = .ok [] ∧
    ¬ ∃ (r : SweepRow) (rows : List SweepRow),
      runSweepVals SweepParam.samples (fun _ => (none, none)) (fun _ => some "p")
        [10] [("u", "f.txt")] = .ok rows ∧ r ∈ rows := by
  refine ⟨rfl, ?_⟩
  rintro ⟨r, rows, hok, hr⟩
  have hconc : runSweepVals SweepParam.samples (fun _ => (none, none))
      (fun _ => some "p") [10] [("u", "f.txt")] = .ok ([] : List SweepRow) := rfl
  have : rows = [] := by simpa using hconc.symm.trans hok
  subst this
  simp at hr

/-- C7 (amended): a `(dataset, value)` combination whose baseline or variant
aggregation has an absent mean time (in particular one whose aggregation
returned entirely absent means) produces no row at all — `run_sweep` skips
the combination via `if None in (t1, t2): continue` instead of emitting an
absent-valued record. -/
theorem claim_C7_absent_skipped (param : SweepParam)
    (agg : AggArgs → Option ℚ × Option ℚ) (prep : String × String → Option String)
    (val : Int) (ds : String × String) (path : String)
    (hprep : prep ds = some path)
    (habsent : (agg (baselineArgs path)).1 = none ∨
      (agg (variantArgs param val path)).1 = none) :
    recordFor param agg prep val ds = .ok none := by
  rw [recordFor_prep_some hprep]
  rcases habsent with h | h
  · rw [h]
  · rw [h]
    cases (agg (baselineArgs path)).1 <;> rfl

/-- Witness for C7's amended theorem at a concrete all-absent oracle. -/
theorem claim_C7_witness :
    recordFor SweepParam.samples (fun _ => (none, none)) (fun _ => some "p")
      10 ("u", "f.txt") = .ok none :=
  claim_C7_absent_skipped SweepParam.samples (fun _ => (none, none))
    (fun _ => some "p") 10 ("u", "f.txt") "p" rfl (Or.inl rfl)

/-! ## Normalizer failure behaviour (C8) -/

/-- C8 counterexample: at a source whose stream fails after one line (with
the target absent beforehand), the claim requires the partially written
output to be deleted (no target content afterwards) and a non-exceptional
no-path report; the embedded `download_and_prepare_dataset` instead leaves
the one-line partial target on disk and lets the exception propagate. -/
theorem claim_C8_counterexample :
    (downloadPrepFull "f.txt" ⟨none, true, ["1 2", "3 4"], [], false, some 1⟩).1.txt
      = some ["1\t2\t1"] ∧
    (downloadPrepFull "f.txt" ⟨none, true, ["1 2", "3 4"], [], false, some 1⟩).2
      = .error () ∧
    some ["1\t2\t1"] ≠ (none : Option (List String)) := by
  exact ⟨rfl, rfl, by simp⟩

/-- C8 (amended): the normalizer has no error handling — if the source cannot
be opened no target is created and the exception propagates to the caller,
and if an I/O error occurs after `k` source lines the partially written
target (the normalization of the first `k` lines) remains on disk while the
exception propagates; in neither case is a no-path report returned. -/
theorem claim_C8_error_propagates (fname : String) (w : DlWorld)
    (htxt : w.txt = none) :
    (w.openFails = true →
      (downloadPrepFull fname w).2 = .error () ∧
      (downloadPrepFull fname w).1.txt = none) ∧
    (∀ k, w.openFails = false → w.truncatedAfter = some k →
      (downloadPrepFull fname w).2 = .error () ∧
      (downloadPrepFull fname w).1.txt =
        some (normalizeOutput ((if w.gzPresent then w.gzLines else w.remoteLines).take k))) := by
  obtain ⟨txt, gzp, gzl, rem, opf, tr⟩ := w
  simp only at htxt
  subst htxt
  constructor
  · intro hof
    simp only at hof
    subst hof
    exact ⟨rfl, rfl⟩
  · intro k hof htr
    simp only at hof htr
    subst hof
    subst htr
    exact ⟨rfl, rfl⟩

/-- Witness for C8's amended theorem: a concrete source truncated after one
line leaves exactly that line's normalization behind and raises. -/
theorem claim_C8_witness :
    (downloadPrepFull "g.txt" ⟨none, true, ["5 6", "7 8"], [], false, some 1⟩).2
      = .error () ∧
    (downloadPrepFull "g.txt" ⟨none, true, ["5 6", "7 8"], [], false, some 1⟩).1.txt
      = some (normalizeOutput ((if true then ["5 6", "7 8"] else []).take 1)) := by
  have h := (claim_C8_error_propagates "g.txt"
    ⟨none, true, ["5 6", "7 8"], [], false, some 1⟩ rfl).2 1 rfl rfl
  exact h

/-! ## Normalizer idempotence (C9) -/

/-- C9 counterexample: the claim says the Normalizer checks the output's
existence before reprocessing (an existing target is returned without
reprocessing — per the spec, even a stale one).  `prepare_local_dataset`
performs no such check: with the target already present with content
`["junk"]`, a run overwrites it with the freshly normalized source instead of
leaving it untouched. -/
theorem claim_C9_counterexample :
    (prepareLocalRun "g.txt" ["1 2"] (some ["junk"])).1 = ["1\t2\t1"] ∧
    ["1\t2\t1"] ≠ ["junk"] := by
  exact ⟨rfl, by decide⟩

/-- C9 (amended): both normalizer entry points are content-idempotent — a
second run with the same source leaves the target content as after a single
run.  For `download_and_prepare_dataset` the world state is literally
unchanged by a rerun, and after any successful run the rerun is a no-op
returning the same path (the existence check short-circuits); for
`prepare_local_dataset` there is no existence check — the rerun reprocesses
unconditionally but writes identical content. -/
theorem claim_C9_idempotent :
    (∀ (fname : String) (w : DlWorld),
      (downloadPrepFull fname (downloadPrepFull fname w).1).1 =
        (downloadPrepFull fname w).1) ∧
    (∀ (fname : String) (w w' : DlWorld) (p : String),
      downloadPrepFull fname w = (w', .ok p) →
      downloadPrepFull fname w' = (w', .ok p)) ∧
    (∀ (fname : String) (src : List String) (prev : Option (List String)),
      (prepareLocalRun fname src (some (prepareLocalRun fname src prev).1)).1 =
        (prepareLocalRun fname src prev).1) := by
  refine ⟨?_, ?_, ?_⟩
  · intro fname w
    obtain ⟨txt, gzp, gzl, rem, opf, tr⟩ := w
    cases txt with
    | some c => rfl
    | none =>
      cases opf with
      | true => rfl
      | false =>
        cases tr with
        | some k => rfl
        | none => rfl
  · intro fname w w' p h
    obtain ⟨txt, gzp, gzl, rem, opf, tr⟩ := w
    cases txt with
    | some c =>
      simp only [downloadPrepFull] at h
      obtain ⟨hw, hp⟩ := Prod.mk.injEq .. ▸ h
      rw [← hw]
      simp only [downloadPrepFull]
      rw [hp]
    | none =>
      cases opf with
      | true =>
        simp only [downloadPrepFull] at h
        exact absurd (Prod.mk.injEq .. ▸ h).2 (by simp)
      | false =>
        cases tr with
        | some k =>
          simp only [downloadPrepFull] at h
          exact absurd (Prod.mk.injEq .. ▸ h).2 (by simp)
        | none =>
          simp only [downloadPrepFull] at h
          obtain ⟨hw, hp⟩ := Prod.mk.injEq .. ▸ h
          rw [← hw]
          simp only [downloadPrepFull]
          rw [hp]
  · intro fname src prev
    rfl

/-- Witness for C9's no-op conjunct: after a successful first run from a
concrete world, the rerun returns the identical state and path. -/
theorem claim_C9_witness :
    downloadPrepFull "f.txt" ⟨some ["1\t2\t1"], false, ["1 2"], ["1 2"], false, none⟩ =
      (⟨some ["1\t2\t1"], false, ["1 2"], ["1 2"], false, none⟩, .ok "datasets/f.txt") :=
  claim_C9_idempotent.2.1 "f.txt" ⟨none, false, [], ["1 2"], false, none⟩
    ⟨some ["1\t2\t1"], false, ["1 2"], ["1 2"], false, none⟩ "datasets/f.txt" rfl

/-! ## The two normalizer implementations (C10) -/

/-- A source line on which the two normalizer implementations cannot disagree:
a comment, a short line, or a data line whose first two tokens are canonical
decimal renderings of two distinct integers. -/
def cleanLine (l : String) : Bool :=
  if startsHash l then true
  else
    match tokensOf l with
    | t0 :: t1 :: _ =>
      match pyInt t0, pyInt t1 with
      | some u, some v =>
        decide (toString u = t0) && decide (toString v = t1) && decide (u ≠ v)
      | _, _ => false
    | _ => true

/-- A source on which the two implementations agree: every line is clean and
no two data lines carry the same canonical edge. -/
def cleanSource (lines : List String) : Prop :=
  (∀ l ∈ lines, cleanLine l = true) ∧
    ((lines.filterMap parseLine).map canonPair).Nodup

theorem cleanLine_of_parseLine_none {l : String} (hc : cleanLine l = true)
    (hpl : parseLine l = none) : benchLine l = none := by
  rw [benchLine]
  by_cases hh : startsHash l = true
  · rw [if_pos hh]
  · rw [if_neg hh]
    rw [parseLine, if_neg hh] at hpl
    rw [cleanLine, if_neg hh] at hc
    cases htok : tokensOf l with
    | nil => rfl
    | cons t0 ts =>
      cases ts with
      | nil => rfl
      | cons t1 rest =>
        rw [htok] at hpl hc
        dsimp only at hpl hc
        cases hp0 : pyInt t0 with
        | none =>
          rw [hp0] at hc
          dsimp only at hc
          exact absurd hc (by simp)
        | some u =>
          cases hp1 : pyInt t1 with
          | none =>
            rw [hp0, hp1] at hc
            dsimp only at hc
            exact absurd hc (by simp)
          | some v =>
            rw [hp0, hp1] at hpl
            dsimp only at hpl
            exact absurd hpl (by simp)

theorem normLoop_render_eq_bench (lines : List String) :
    ∀ seen, (∀ l ∈ lines, cleanLine l = true) →
      ((lines.filterMap parseLine).map canonPair).Nodup →
      (∀ p ∈ lines.filterMap parseLine, canonPair p ∉ seen) →
      (normLoop lines seen).map renderEdge = lines.filterMap benchLine := by
  induction lines with
  | nil => intro seen _ _ _; rfl
  | cons l ls ih =>
    intro seen hclean hnodup hseen
    have hcl := hclean l (List.mem_cons_self _ _)
    have hcls : ∀ l' ∈ ls, cleanLine l' = true :=
      fun l' h => hclean l' (List.mem_cons_of_mem _ h)
    cases hpl : parseLine l with
    | none =>
      rw [normLoop_cons_none hpl, List.filterMap_cons,
        cleanLine_of_parseLine_none hcl hpl]
      rw [List.filterMap_cons, hpl] at hnodup hseen
      exact ih seen hcls hnodup hseen
    | some uv =>
      obtain ⟨u, v⟩ := uv
      have hple := hpl
      rw [List.filterMap_cons, hpl] at hnodup hseen
      rw [List.map_cons, List.nodup_cons] at hnodup
      -- recover the tokens and their canonical renderings from cleanliness
      rw [parseLine] at hpl
      by_cases hh : startsHash l = true
      · rw [if_pos hh] at hpl; exact absurd hpl (by simp)
      · rw [if_neg hh] at hpl
        rw [cleanLine, if_neg hh] at hcl
        cases htok : tokensOf l with
        | nil =>
          rw [htok] at hpl
          dsimp only at hpl
          exact absurd hpl (by simp)
        | cons t0 ts =>
          cases ts with
          | nil =>
            rw [htok] at hpl
            dsimp only at hpl
            exact absurd hpl (by simp)
          | cons t1 rest =>
            rw [htok] at hpl hcl
            dsimp only at hpl hcl
            cases hp0 : pyInt t0 with
            | none =>
              rw [hp0] at hpl
              dsimp only at hpl
              exact absurd hpl (by simp)
            | some u0 =>
              cases hp1 : pyInt t1 with
              | none =>
                rw [hp0, hp1] at hpl
                dsimp only at hpl
                exact absurd hpl (by simp)
              | some v0 =>
                rw [hp0, hp1] at hpl hcl
                dsimp only at hpl hcl
                have huv := Option.some_inj.mp hpl
                have hu0 : u0 = u := congrArg Prod.fst huv
                have hv0 : v0 = v := congrArg Prod.snd huv
                subst hu0
                subst hv0
                simp only [Bool.and_eq_true, decide_eq_true_eq] at hcl
                obtain ⟨⟨ht0, ht1⟩, hne⟩ := hcl
                rw [normLoop_cons_some hple]
                rw [if_neg hne]
                have hnotseen : canonPair (u0, v0) ∉ seen :=
                  hseen (u0, v0) (List.mem_cons_self _ _)
                rw [if_neg hnotseen]
                rw [List.filterMap_cons]
                rw [show benchLine l = some (t0 ++ "\t" ++ t1 ++ "\t1") from by
                  rw [benchLine, if_neg hh, htok]]
                rw [List.map_cons]
                rw [show renderEdge (u0, v0) = t0 ++ "\t" ++ t1 ++ "\t1" from by
                  rw [renderEdge]
                  rw [ht0, ht1]]
                have hseen' : ∀ p ∈ ls.filterMap parseLine,
                    canonPair p ∉ canonPair (u0, v0) :: seen := by
                  intro p hp hmem
                  rcases List.mem_cons.mp hmem with h | h
                  · exact hnodup.1 (h ▸ List.mem_map_of_mem canonPair hp)
                  · exact hseen p (List.mem_cons_of_mem _ hp) h
                rw [ih _ hcls hnodup.2 hseen']

/-- C10 counterexample: the two coexisting `download_and_prepare_dataset`
implementations are not extensionally equal — on the single-line source
`1 1` (a self-loop) the scripts/ normalizer writes nothing while the
benchmark/ variant writes the line through unchanged. -/
theorem claim_C10_counterexample :
    normalizeOutput ["1 1"] = [] ∧
    benchNormalizeOutput ["1 1"] = ["1\t1\t1"] ∧
    normalizeOutput ["1 1"] ≠ benchNormalizeOutput ["1 1"] := by
  refine ⟨rfl, rfl, ?_⟩
  decide

/-- C10 (amended): the benchmark/ variant performs no self-loop removal, no
duplicate-edge collapsing and no integer validation, so the two
implementations differ in general; on every source whose data lines all
carry distinct (canonically) non-self-loop edges whose tokens are canonical
decimal integer renderings, the two write identical file content (a
sufficient condition — nothing is claimed for sources outside it). -/
theorem claim_C10_equivalence (lines : List String) (h : cleanSource lines) :
    normalizeOutput lines = benchNormalizeOutput lines := by
  obtain ⟨hclean, hnodup⟩ := h
  rw [normalizeOutput, normalizeEdges, benchNormalizeOutput]
  exact normLoop_render_eq_bench lines [] hclean hnodup (by simp)

/-- Witness for C10's amended equivalence at a concrete clean source. -/
theorem claim_C10_witness :
    normalizeOutput ["# c", "1 2", "3 4"] = benchNormalizeOutput ["# c", "1 2", "3 4"] :=
  claim_C10_equivalence ["# c", "1 2", "3 4"] (by constructor <;> decide)

end Mosso
